import Mathlib

/-!
# xeno-backend: the sync / stats handlers of `server.js`

A shallow embedding of the Express handlers `/sync/:tenantId`, `/stats/:tenantId`,
`/stats/:tenantId/revenue` and `/stats/:tenantId/orders`.

Modelling conventions.

* The Prisma tables are lists of rows in insertion order; an auto-increment primary key is a
  counter kept next to the tables.  `upsert` on the unique column `shopifyId` either rewrites the
  row carrying the key or appends a fresh row.
* A write can throw: a `Float` column takes finite numbers only (`NaN` and the infinities are
  rejected) and a `DateTime` column takes valid dates only.  A throw leaves the `try` block of
  the handler; the writes made before it stay.  Text columns and `customerId` are nullable.
* JavaScript numbers are `NaN`, the infinities and finite values; the finite values the code
  computes are binary64 numbers, and `+`, `-` and `parseFloat` round to nearest, ties to even.
* Remote identifiers are natural numbers (the remote API sends integer ids); the value `0` is
  falsy, as in JavaScript.
* The sum `_sum.total` is computed by the database engine; its summation is a parameter of the
  summary (`exactSum`: totals taken as exact numbers, `doubleSum`: a binary64 accumulator).
* A timestamp is an ECMAScript time value (milliseconds since the epoch, UTC).  A calendar day is
  its day number since 1970-01-01, which stands for the text `YYYY-MM-DD`.  The local time zone
  of the server process, which `setDate` and `getDate` use, is a parameter of the series
  handlers.
-/

namespace Xeno

/-! ## JavaScript values -/

/-- A JSON text field as JavaScript sees it: absent, `null`, or a string. -/
inductive JsText where
  | undefined
  | null
  | str (s : String)
  deriving DecidableEq, Repr

/-- A JavaScript number: `NaN`, a finite value, or an infinity (`neg = true` for `-Infinity`). -/
inductive JsNum where
  | nan
  | fin (q : ℚ)
  | inf (neg : Bool)
  deriving DecidableEq

namespace JsText

/-- JavaScript truthiness of a text field: only a non-empty string is truthy. -/
def truthy : JsText → Bool
  | str s => decide (s ≠ "")
  | _ => false

/-- The abstract operation `ToString` on a text field. -/
def toJsString : JsText → String
  | undefined => "undefined"
  | null => "null"
  | str s => s

/-- The expression `v || d` for a text field `v` and a default string `d`. -/
def orDefault (v : JsText) (d : String) : String :=
  match v with
  | str s => if s = "" then d else s
  | _ => d

/-- Value written into a created row for a field given as `v`: an omitted or `null` field
is stored as NULL. -/
def toColumn : JsText → Option String
  | str s => some s
  | _ => none

/-- Value of a column after a Prisma `update` that passes `v` for it: `undefined` leaves the
column alone, `null` stores NULL, a string is stored. -/
def updateColumn (v : JsText) (old : Option String) : Option String :=
  match v with
  | undefined => old
  | null => none
  | str s => some s

end JsText

/-! ## Binary64 rounding -/

/-- The power `2 ^ e` for an integer exponent. -/
def pow2 (e : Int) : ℚ :=
  if 0 ≤ e then ((2 ^ e.toNat : Nat) : ℚ) else 1 / ((2 ^ (-e).toNat : Nat) : ℚ)

/-- Bisection between `lo` and `hi` for the largest exponent `e` with `2 ^ (e + 52) ≤ a`;
returns `lo` when no exponent of the interval qualifies. -/
def ulpSearch (a : ℚ) : Nat → Int → Int → Int
  | 0, lo, _ => lo
  | fuel + 1, lo, hi =>
    if pow2 ((lo + hi) / 2 + 52) ≤ a then ulpSearch a fuel ((lo + hi) / 2) hi
    else ulpSearch a fuel lo ((lo + hi) / 2)

/-- The exponent of the unit in the last place of a binary64 number of magnitude `a`: the
largest `e` in `[-1074, 971]` with `2 ^ (e + 52) ≤ a`, and `-1074` (the subnormal range) when
there is none.  Twelve halvings exhaust the interval. -/
def ulpExp (a : ℚ) : Int := ulpSearch a 12 (-1074) 972

/-- Rounding of a rational to the nearest integer, a tie going to the even one. -/
def roundHalfEven (x : ℚ) : Int :=
  if x - (Rat.floor x : ℚ) < 1 / 2 then Rat.floor x
  else if 1 / 2 < x - (Rat.floor x : ℚ) then Rat.floor x + 1
  else if Rat.floor x % 2 = 0 then Rat.floor x
  else Rat.floor x + 1

/-- Rounding of an exact value to binary64, to nearest with ties to even: a multiple of the
unit in the last place, or an infinity when the rounded magnitude reaches `2 ^ 1024`. -/
def roundDouble (q : ℚ) : JsNum :=
  let a := if q < 0 then -q else q
  let v := (roundHalfEven (a / pow2 (ulpExp a)) : ℚ) * pow2 (ulpExp a)
  if pow2 1024 ≤ v then JsNum.inf (decide (q < 0))
  else JsNum.fin (if q < 0 then -v else v)

namespace JsNum

/-- JavaScript truthiness of a number: `NaN` and zero are falsy. -/
def truthy : JsNum → Bool
  | nan => false
  | fin q => decide (q ≠ 0)
  | inf _ => true

/-- JavaScript `a + b` on numbers: the exact sum of finite values, rounded to binary64. -/
def add : JsNum → JsNum → JsNum
  | nan, _ => nan
  | _, nan => nan
  | fin a, fin b => roundDouble (a + b)
  | fin _, inf s => inf s
  | inf s, fin _ => inf s
  | inf s, inf t => if s = t then inf s else nan

/-- Addition without rounding: the sum of finite values taken as exact numbers. -/
def addExact : JsNum → JsNum → JsNum
  | nan, _ => nan
  | _, nan => nan
  | fin a, fin b => fin (a + b)
  | fin _, inf s => inf s
  | inf s, fin _ => inf s
  | inf s, inf t => if s = t then inf s else nan

/-- JavaScript unary minus. -/
def neg : JsNum → JsNum
  | nan => nan
  | fin a => fin (-a)
  | inf s => inf (!s)

/-- JavaScript `a - b` on numbers. -/
def sub (a b : JsNum) : JsNum := a.add b.neg

/-- The expression `x || 0` for a number `x`. -/
def orZero (x : JsNum) : JsNum := if x.truthy then x else fin 0

/-- The test `x > 0` (false for `NaN`). -/
def isPos : JsNum → Bool
  | nan => false
  | fin q => decide (0 < q)
  | inf s => !s

/-- Whether the number is finite. -/
def isFinite : JsNum → Bool
  | fin _ => true
  | _ => false

/-- The rational value of a finite number (`0` for `NaN` and the infinities). -/
def val : JsNum → ℚ
  | fin q => q
  | _ => 0

/-- The position of a number on the extended line: `-Infinity` at the bottom, `Infinity` at
the top (`NaN`, which is not ordered, is put at the bottom). -/
def toExt : JsNum → WithBot (WithTop ℚ)
  | nan => ⊥
  | fin q => ((q : WithTop ℚ) : WithBot (WithTop ℚ))
  | inf true => ⊥
  | inf false => ((⊤ : WithTop ℚ) : WithBot (WithTop ℚ))

end JsNum

/-- The sum of a column without rounding, the values taken as exact numbers. -/
def exactSum (l : List JsNum) : JsNum := l.foldl JsNum.addExact (JsNum.fin 0)

/-- The sum of a list computed from left to right in binary64. -/
def doubleSum (l : List JsNum) : JsNum := l.foldl JsNum.add (JsNum.fin 0)

/-! ## `parseFloat` -/

/-- The characters `parseFloat` skips at the start of its argument
(`WhiteSpace` and `LineTerminator` of ECMAScript). -/
def isStrWhiteSpaceChar (c : Char) : Bool :=
  let n := c.toNat
  n = 0x09 || n = 0x0A || n = 0x0B || n = 0x0C || n = 0x0D || n = 0x20 || n = 0xA0 ||
  n = 0x1680 || (0x2000 ≤ n && n ≤ 0x200A) || n = 0x2028 || n = 0x2029 || n = 0x202F ||
  n = 0x205F || n = 0x3000 || n = 0xFEFF

/-- Value of a run of decimal digits. -/
def digitsVal (ds : List Char) : Nat :=
  ds.foldl (fun n c => 10 * n + (c.toNat - 48)) 0

/-- The exponent denoted by the text after a mantissa: `e` or `E`, an optional sign and at
least one digit; anything else contributes no exponent. -/
def exponentOf (cs : List Char) : Int :=
  match cs with
  | e :: r =>
    if e = 'e' ∨ e = 'E' then
      match r with
      | '+' :: r1 =>
        let ds := r1.takeWhile Char.isDigit
        if ds = [] then 0 else (digitsVal ds : Int)
      | '-' :: r1 =>
        let ds := r1.takeWhile Char.isDigit
        if ds = [] then 0 else - (digitsVal ds : Int)
      | _ =>
        let ds := r.takeWhile Char.isDigit
        if ds = [] then 0 else (digitsVal ds : Int)
    else 0
  | [] => 0

/-- Scale a rational by a power of ten. -/
def scale10 (q : ℚ) (e : Int) : ℚ :=
  if 0 ≤ e then q * ((10 ^ e.toNat : Nat) : ℚ) else q / ((10 ^ (-e).toNat : Nat) : ℚ)

/-- The longest prefix of `cs` that is an unsigned `StrDecimalLiteral` other than `Infinity`,
as its exact value; `none` when no prefix is one. -/
def parseUnsignedDecimal (cs : List Char) : Option ℚ :=
  let ip := cs.takeWhile Char.isDigit
  let r1 := cs.dropWhile Char.isDigit
  match r1 with
  | '.' :: r =>
    let fp := r.takeWhile Char.isDigit
    let r2 := r.dropWhile Char.isDigit
    if ip = [] ∧ fp = [] then none
    else some (scale10 ((digitsVal (ip ++ fp) : ℚ) / ((10 ^ fp.length : Nat) : ℚ)) (exponentOf r2))
  | _ =>
    if ip = [] then none
    else some (scale10 (digitsVal ip : ℚ) (exponentOf r1))

/-- The unsigned part of `parseFloat`: `Infinity`, or a decimal literal prefix whose exact
value is rounded to binary64, or `NaN`. -/
def parseUnsigned (cs : List Char) : JsNum :=
  if "Infinity".data.isPrefixOf cs then JsNum.inf false
  else
    match parseUnsignedDecimal cs with
    | some q => roundDouble q
    | none => JsNum.nan

/-- The built-in `parseFloat` on the characters of its (already stringified) argument. -/
def parseFloatChars (cs : List Char) : JsNum :=
  match cs.dropWhile isStrWhiteSpaceChar with
  | '-' :: r => (parseUnsigned r).neg
  | '+' :: r => parseUnsigned r
  | r => parseUnsigned r

/-- The built-in `parseFloat` applied to a string. -/
def parseFloat (s : String) : JsNum := parseFloatChars s.data

/-- The argument `parseFloat` receives for a JSON text field (after `ToString`). -/
def parseFloatText (v : JsText) : JsNum := parseFloat v.toJsString

/-! ## Data model -/

/-- A row of the `store` table (a tenant). -/
structure Tenant where
  id : Nat
  name : String
  storeUrl : String
  apiToken : String
  userId : Nat
  deriving DecidableEq

/-- A row of the `customer` table. -/
structure Customer where
  id : Nat
  shopifyId : String
  name : Option String
  email : Option String
  storeId : Nat
  deriving DecidableEq

/-- A row of the `product` table. -/
structure Product where
  id : Nat
  shopifyId : String
  title : Option String
  price : JsNum
  storeId : Nat
  deriving DecidableEq

/-- A row of the `order` table; `createdAt` is a time value. -/
structure Order where
  id : Nat
  shopifyId : String
  total : JsNum
  createdAt : Int
  storeId : Nat
  customerId : Option Nat
  deriving DecidableEq

/-- The database: the four tables and the auto-increment counters of the three synced ones. -/
structure Db where
  stores : List Tenant
  customers : List Customer
  products : List Product
  orders : List Order
  nextCustomerId : Nat
  nextProductId : Nat
  nextOrderId : Nat
  deriving DecidableEq

/-- An element of `customersRes.data.customers`. -/
structure RemoteCustomer where
  id : Nat
  first_name : JsText
  email : JsText
  deriving DecidableEq

/-- An element of a remote product's `variants`. -/
structure RemoteVariant where
  price : JsText
  deriving DecidableEq

/-- An element of `productsRes.data.products`; a missing `variants` is the empty list. -/
structure RemoteProduct where
  id : Nat
  title : JsText
  variants : List RemoteVariant
  deriving DecidableEq

/-- The `customer` object of a remote order. -/
structure RemoteCustomerRef where
  id : Nat
  deriving DecidableEq

/-- An element of `ordersRes.data.orders`.  `customer = none` is a missing or `null` customer;
`created_at` is the time value `new Date(o.created_at)` denotes, `none` for an Invalid Date
(a missing or unparsable timestamp). -/
structure RemoteOrder where
  id : Nat
  customer : Option RemoteCustomerRef
  total_price : JsText
  created_at : Option Int
  deriving DecidableEq

/-- The outcome of a loop of writes: it ran to its end, or a write threw; either way with the
database as the writes made so far left it. -/
inductive LoopResult where
  | done (db : Db)
  | threw (db : Db)
  deriving DecidableEq

/-- The database a loop leaves behind. -/
def LoopResult.db : LoopResult → Db
  | LoopResult.done d => d
  | LoopResult.threw d => d

/-- Whether the loop ran to its end. -/
def LoopResult.isDone : LoopResult → Bool
  | LoopResult.done _ => true
  | LoopResult.threw _ => false

/-! ## The store: `findUnique` and `upsert` -/

/-- Rows after `upsert({ where: { shopifyId: k }, update, create })`: the row carrying the
key is rewritten by `update`, or `fresh` is appended when no row carries it. -/
def upsertRows {α : Type} (key : α → String) (rows : List α) (k : String)
    (update : α → α) (fresh : α) : List α :=
  if rows.any (fun r => decide (key r = k)) then
    rows.map (fun r => if key r = k then update r else r)
  else rows ++ [fresh]

/-- The key `n.toString()` of a remote id. -/
def idKey (n : Nat) : String := toString n

/-- The key of the guest customer of order `n`, the template literal with `guest-` before
the order id. -/
def guestKey (n : Nat) : String := "guest-" ++ toString n

/-- The call `prisma.customer.findUnique({ where: { shopifyId: k } })`. -/
def findCustomer (db : Db) (k : String) : Option Customer :=
  db.customers.find? (fun c => decide (c.shopifyId = k))

/-- The call `prisma.customer.upsert` of the customer loop, for one remote customer. -/
def upsertCustomer (db : Db) (tenant : Tenant) (c : RemoteCustomer) : Db :=
  let fresh : Customer :=
    { id := db.nextCustomerId
      shopifyId := idKey c.id
      name := some (c.first_name.orDefault "Unknown")
      email := some (c.email.orDefault "dummy@gmail.com")
      storeId := tenant.id }
  let update : Customer → Customer := fun r =>
    { r with name := c.first_name.updateColumn r.name, email := c.email.updateColumn r.email }
  { db with
    customers := upsertRows Customer.shopifyId db.customers (idKey c.id) update fresh
    nextCustomerId :=
      if (findCustomer db (idKey c.id)).isSome then db.nextCustomerId else db.nextCustomerId + 1 }

/-- The customer loop of `/sync`. -/
def reconcileCustomers (db : Db) (tenant : Tenant) (cs : List RemoteCustomer) : Db :=
  cs.foldl (fun d c => upsertCustomer d tenant c) db

/-- The expression `p.variants?.[0]?.price`. -/
def firstVariantPrice (p : RemoteProduct) : JsText :=
  match p.variants with
  | v :: _ => v.price
  | [] => JsText.undefined

/-- The expression `parseFloat(p.variants?.[0]?.price || 0)`. -/
def productPrice (p : RemoteProduct) : JsNum :=
  if (firstVariantPrice p).truthy then parseFloatText (firstVariantPrice p)
  else parseFloat "0"

/-- Whether the store takes the product write: the price, the same in the `update` and the
`create` data, has to be a finite number. -/
def productAccepted (p : RemoteProduct) : Bool := (productPrice p).isFinite

/-- The call `prisma.product.upsert` of the product loop, for one remote product; `none` when
the call throws, which leaves the table as it is. -/
def upsertProduct (db : Db) (tenant : Tenant) (p : RemoteProduct) : Option Db :=
  if productAccepted p then
    let fresh : Product :=
      { id := db.nextProductId
        shopifyId := idKey p.id
        title := p.title.toColumn
        price := productPrice p
        storeId := tenant.id }
    let update : Product → Product := fun r =>
      { r with title := p.title.updateColumn r.title, price := productPrice p }
    some { db with
      products := upsertRows Product.shopifyId db.products (idKey p.id) update fresh
      nextProductId :=
        if db.products.any (fun r => decide (r.shopifyId = idKey p.id)) then db.nextProductId
        else db.nextProductId + 1 }
  else none

/-- The product loop of `/sync`: it stops at the first write that throws. -/
def reconcileProducts (db : Db) (tenant : Tenant) : List RemoteProduct → LoopResult
  | [] => LoopResult.done db
  | p :: ps =>
    match upsertProduct db tenant p with
    | some db1 => reconcileProducts db1 tenant ps
    | none => LoopResult.threw db

/-- The guest upsert of the order loop (`update: {}`): returns the new database and the id
of the guest customer row. -/
def upsertGuest (db : Db) (tenant : Tenant) (o : RemoteOrder) : Db × Nat :=
  match findCustomer db (guestKey o.id) with
  | some g => (db, g.id)
  | none =>
    let fresh : Customer :=
      { id := db.nextCustomerId
        shopifyId := guestKey o.id
        name := some "Guest"
        email := some "guest@example.com"
        storeId := tenant.id }
    ({ db with customers := db.customers ++ [fresh], nextCustomerId := db.nextCustomerId + 1 },
      fresh.id)

/-- The first half of the body of the order loop: the database after the customer lookup or
guest upsert, and the resolved `customerId`. -/
def resolveCustomer (db : Db) (tenant : Tenant) (o : RemoteOrder) : Db × Option Nat :=
  match o.customer with
  | some ref =>
    if ref.id ≠ 0 then
      match findCustomer db (idKey ref.id) with
      | some customer => (db, some customer.id)
      | none => (db, none)
    else
      let r := upsertGuest db tenant o
      (r.1, some r.2)
  | none =>
    let r := upsertGuest db tenant o
    (r.1, some r.2)

/-- Whether the store takes the order write: `createdAt` has to be a valid date and `total`
a finite number (both are the same in the `update` and the `create` data). -/
def orderAccepted (o : RemoteOrder) : Bool :=
  o.created_at.isSome && (parseFloatText o.total_price).isFinite

/-- The call `prisma.order.upsert` of the order loop with the resolved `customerId`; `none`
when the call throws, which leaves the table as it is. -/
def upsertOrder (db : Db) (tenant : Tenant) (o : RemoteOrder) (customerId : Option Nat) :
    Option Db :=
  match o.created_at with
  | none => none
  | some createdAt =>
    if (parseFloatText o.total_price).isFinite then
      let fresh : Order :=
        { id := db.nextOrderId
          shopifyId := idKey o.id
          total := parseFloatText o.total_price
          createdAt := createdAt
          storeId := tenant.id
          customerId := customerId }
      let update : Order → Order := fun r =>
        { r with total := parseFloatText o.total_price, createdAt := createdAt,
                 customerId := customerId }
      some { db with
        orders := upsertRows Order.shopifyId db.orders (idKey o.id) update fresh
        nextOrderId :=
          if db.orders.any (fun r => decide (r.shopifyId = idKey o.id)) then db.nextOrderId
          else db.nextOrderId + 1 }
    else none

/-- The body of the order loop for one remote order: the customer lookup or guest upsert,
then the order upsert; when the order upsert throws, the guest row written before it stays. -/
def reconcileOrder (db : Db) (tenant : Tenant) (o : RemoteOrder) : LoopResult :=
  match upsertOrder (resolveCustomer db tenant o).1 tenant o (resolveCustomer db tenant o).2 with
  | some db1 => LoopResult.done db1
  | none => LoopResult.threw (resolveCustomer db tenant o).1

/-- The order loop of `/sync`: it stops at the first iteration that throws. -/
def reconcileOrders (db : Db) (tenant : Tenant) : List RemoteOrder → LoopResult
  | [] => LoopResult.done db
  | o :: os =>
    match reconcileOrder db tenant o with
    | LoopResult.done db1 => reconcileOrders db1 tenant os
    | LoopResult.threw db1 => LoopResult.threw db1

/-! ## The aggregates returned by `/sync` and `/stats` -/

/-- An entry of `topCustomers`. -/
structure TopCustomer where
  name : Option String
  spend : JsNum
  deriving DecidableEq

/-- The JSON body of a successful `/sync` or `/stats` response (without the message). -/
structure Summary where
  totalCustomers : Nat
  totalOrders : Nat
  totalRevenue : JsNum
  topCustomers : List TopCustomer
  deriving DecidableEq

/-- The query `prisma.customer.count({ where: { storeId } })`. -/
def countCustomers (db : Db) (storeId : Nat) : Nat :=
  (db.customers.filter (fun c => decide (c.storeId = storeId))).length

/-- The number of products of a tenant (no handler reports it). -/
def countProducts (db : Db) (storeId : Nat) : Nat :=
  (db.products.filter (fun p => decide (p.storeId = storeId))).length

/-- The query `prisma.order.count({ where: { storeId } })`. -/
def countOrders (db : Db) (storeId : Nat) : Nat :=
  (db.orders.filter (fun o => decide (o.storeId = storeId))).length

/-- The orders of a tenant. -/
def tenantOrders (db : Db) (storeId : Nat) : List Order :=
  db.orders.filter (fun o => decide (o.storeId = storeId))

/-- The field `_sum.total` of `prisma.order.aggregate`: `null` when no row matches,
otherwise the sum of the column, which the database engine computes; `sumOf` is that
engine's summation (`exactSum` when totals are taken as exact numbers, `doubleSum` for a
binary64 accumulator). -/
def aggregateSumTotal (sumOf : List JsNum → JsNum) (db : Db) (storeId : Nat) : Option JsNum :=
  match tenantOrders db storeId with
  | [] => none
  | o :: os => some (sumOf ((o :: os).map Order.total))

/-- The value `totalRevenueData._sum.total || 0`. -/
def totalRevenue (sumOf : List JsNum → JsNum) (db : Db) (storeId : Nat) : JsNum :=
  match aggregateSumTotal sumOf db storeId with
  | some v => v.orZero
  | none => JsNum.fin 0

/-- The relation `orders` included by `findMany({ include: { orders: true } })`. -/
def customerOrders (db : Db) (c : Customer) : List Order :=
  db.orders.filter (fun o => decide (o.customerId = some c.id))

/-- The value `c.orders.reduce((sum, o) => sum + o.total, 0)`. -/
def spendOf (db : Db) (c : Customer) : JsNum :=
  (customerOrders db c).foldl (fun sum o => sum.add o.total) (JsNum.fin 0)

/-- Insertion of `x` in front of an already sorted list, after every element it compares
greater than. -/
def sortInsert {α : Type} (cmp : α → α → JsNum) (x : α) : List α → List α
  | [] => [x]
  | y :: ys => if (cmp x y).isPos then y :: sortInsert cmp x ys else x :: y :: ys

/-- The method `Array.prototype.sort(cmp)`: a stable sort in which `a` goes after `b` when
`cmp(a, b) > 0` (a `NaN` result counts as `0`).  For a comparator that is a consistent
ordering, every stable sort returns this list. -/
def jsSort {α : Type} (cmp : α → α → JsNum) (l : List α) : List α :=
  l.foldr (sortInsert cmp) []

/-- The rows of `customers.map(c => ({ name, spend }))` for the customers of a tenant. -/
def spendEntries (db : Db) (storeId : Nat) : List TopCustomer :=
  (db.customers.filter (fun c => decide (c.storeId = storeId))).map
    (fun c => { name := c.name, spend := spendOf db c })

/-- The value `topCustomers`: map, `sort((a, b) => b.spend - a.spend)`, `slice(0, 5)`. -/
def topCustomers (db : Db) (storeId : Nat) : List TopCustomer :=
  (jsSort (fun a b => b.spend.sub a.spend) (spendEntries db storeId)).take 5

/-- The four aggregates of step 4 of `/sync`, which `/stats` computes in the same way. -/
def summary (sumOf : List JsNum → JsNum) (db : Db) (storeId : Nat) : Summary :=
  { totalCustomers := countCustomers db storeId
    totalOrders := countOrders db storeId
    totalRevenue := totalRevenue sumOf db storeId
    topCustomers := topCustomers db storeId }

/-- The handler of `GET /stats/:tenantId` (the id already parsed by `parseInt`). -/
def statsHandler (sumOf : List JsNum → JsNum) (db : Db) (tenantId : Nat) : Summary :=
  summary sumOf db tenantId

/-! ## The `/sync` handler -/

/-- The response of `/sync`: 404, 500 or the summary. -/
inductive SyncResponse where
  | tenantNotFound
  | syncFailed
  | ok (s : Summary)
  deriving DecidableEq

/-- The body of the `try` block of `/sync` once the tenant is found.  The three `axios.get`
calls are given by their outcome (`none`: the call throws).  A throwing fetch or write
leaves the block, and the `catch` block answers 500 with the database as it is then. -/
def syncTenant (sumOf : List JsNum → JsNum) (db : Db) (tenant : Tenant)
    (customersRes : Option (List RemoteCustomer)) (productsRes : Option (List RemoteProduct))
    (ordersRes : Option (List RemoteOrder)) : Db × SyncResponse :=
  match customersRes with
  | none => (db, SyncResponse.syncFailed)
  | some cs =>
    match productsRes with
    | none => (reconcileCustomers db tenant cs, SyncResponse.syncFailed)
    | some ps =>
      match reconcileProducts (reconcileCustomers db tenant cs) tenant ps with
      | LoopResult.threw db2 => (db2, SyncResponse.syncFailed)
      | LoopResult.done db2 =>
        match ordersRes with
        | none => (db2, SyncResponse.syncFailed)
        | some os =>
          match reconcileOrders db2 tenant os with
          | LoopResult.threw db3 => (db3, SyncResponse.syncFailed)
          | LoopResult.done db3 => (db3, SyncResponse.ok (summary sumOf db3 tenant.id))

/-- The handler of `GET /sync/:tenantId` for the authenticated user `userId`. -/
def syncHandler (sumOf : List JsNum → JsNum) (db : Db) (tenantId userId : Nat)
    (customersRes : Option (List RemoteCustomer)) (productsRes : Option (List RemoteProduct))
    (ordersRes : Option (List RemoteOrder)) : Db × SyncResponse :=
  match db.stores.find? (fun t => decide (t.id = tenantId ∧ t.userId = userId)) with
  | none => (db, SyncResponse.tenantNotFound)
  | some tenant => syncTenant sumOf db tenant customersRes productsRes ordersRes
/-! ## The daily series -/

/-- Milliseconds in a day. -/
def msPerDay : Int := 86400000

/-- The time value of `new Date(day)` for a date-only text: midnight UTC of that day. -/
def dateOnly (day : Int) : Int := day * msPerDay

/-- The time value of `new Date(day + 'T23:59:59.999Z')`. -/
def endOfDay (day : Int) : Int := day * msPerDay + 86399999

/-- The value `d.toISOString().split('T')[0]`: the UTC calendar day of a time value. -/
def isoDate (t : Int) : Int := t / msPerDay

/-- Day number of the civil date `y-m-d` (proleptic Gregorian calendar, 1970-01-01 is 0). -/
def daysFromCivil (y m d : Int) : Int :=
  let y1 := if m ≤ 2 then y - 1 else y
  let era := y1 / 400
  let yoe := y1 - era * 400
  let mp := (m + 9) % 12
  let doy := (153 * mp + 2) / 5 + d - 1
  let doe := yoe * 365 + yoe / 4 - yoe / 100 + doy
  era * 146097 + doe - 719468

/-- The local time zone of the server process.  `offsetAt t` is the offset from UTC, in
milliseconds, in force at the time value `t`; `offsetOfLocal u` is the offset used to read
the local time `u` back as a time value.  Within a day the offset changes by less than a
day (`advances`), so the next local day is later. -/
structure TimeZone where
  offsetAt : Int → Int
  offsetOfLocal : Int → Int
  advances : ∀ t : Int, offsetOfLocal (t + offsetAt t + 86400000) < offsetAt t + 86400000

/-- The time value after `d.setDate(d.getDate() + 1)`: the same local clock time on the next
local calendar day, read back in the zone. -/
def nextLocalDay (tz : TimeZone) (t : Int) : Int :=
  t + tz.offsetAt t + 86400000 - tz.offsetOfLocal (t + tz.offsetAt t + 86400000)

/-- A zone with a constant offset from UTC. -/
def constantZone (c : Int) : TimeZone :=
  { offsetAt := fun _ => c
    offsetOfLocal := fun _ => c
    advances := fun _ => by
      show c < c + 86400000
      omega }

/-- The zone UTC. -/
def utcZone : TimeZone := constantZone 0

/-- Start of the summer time of 2024 in Europe/London: 2024-03-31 01:00 UTC. -/
def londonSummerStart : Int := dateOnly (daysFromCivil 2024 3 31) + 3600000

/-- End of the summer time of 2024 in Europe/London: 2024-10-27 01:00 UTC. -/
def londonSummerEnd : Int := dateOnly (daysFromCivil 2024 10 27) + 3600000

/-- The zone Europe/London with its summer time of the year 2024: one hour ahead of UTC
between the two changes, on UTC otherwise.  A local time in the skipped hour is read with
the offset before the change. -/
def europeLondon : TimeZone :=
  { offsetAt := fun t => if londonSummerStart ≤ t ∧ t < londonSummerEnd then 3600000 else 0
    offsetOfLocal := fun u =>
      if londonSummerStart + 3600000 ≤ u ∧ u < londonSummerEnd + 3600000 then 3600000 else 0
    advances := fun t => by
      dsimp only
      split <;> split <;> omega }

/-- The query `findMany` of the two series handlers: the tenant's orders created in
`[start 00:00:00.000, end 23:59:59.999]`, ordered by `createdAt`. -/
def ordersInRange (db : Db) (storeId : Nat) (startDay endDay : Int) : List Order :=
  List.insertionSort (fun a b : Order => a.createdAt ≤ b.createdAt)
    (db.orders.filter (fun o =>
      decide (o.storeId = storeId) &&
      (decide (dateOnly startDay ≤ o.createdAt) && decide (o.createdAt ≤ endOfDay endDay))))

/-- One step of the `forEach` that fills `dailyRevenue`. -/
def revenueStep (acc : Int → Option JsNum) (order : Order) : Int → Option JsNum :=
  let date := isoDate order.createdAt
  let cur : JsNum :=
    match acc date with
    | some v => if v.truthy then v else JsNum.fin 0
    | none => JsNum.fin 0
  Function.update acc date (some (cur.add order.total))

/-- One step of the `forEach` that fills `dailyOrders`. -/
def countStep (acc : Int → Option Nat) (order : Order) : Int → Option Nat :=
  let date := isoDate order.createdAt
  let cur : Nat :=
    match acc date with
    | some v => v
    | none => 0
  Function.update acc date (some (cur + 1))

/-- The loop `for (let d = new Date(start); d <= end; d.setDate(d.getDate() + 1))` with the
`push` of `d.toISOString().split('T')[0]`, in a process whose local zone is `tz`. -/
def datesLoop (tz : TimeZone) (d stop : Int) : List Int :=
  if d ≤ stop then isoDate d :: datesLoop tz (nextLocalDay tz d) stop else []
termination_by (stop - d + 1).toNat
decreasing_by
  have h := tz.advances d
  simp only [nextLocalDay]
  omega

/-- The array `dates` of the series handlers. -/
def seriesLabels (tz : TimeZone) (startDay endDay : Int) : List Int :=
  datesLoop tz (dateOnly startDay) (dateOnly endDay)

/-- The value `dailyRevenue[date] || 0`. -/
def readRevenue (acc : Int → Option JsNum) (date : Int) : JsNum :=
  match acc date with
  | some v => v.orZero
  | none => JsNum.fin 0

/-- The value `dailyOrders[date] || 0`. -/
def readCount (acc : Int → Option Nat) (date : Int) : Nat :=
  match acc date with
  | some v => v
  | none => 0

/-- The response of `GET /stats/:tenantId/revenue`: labels and data. -/
def revenueSeries (tz : TimeZone) (db : Db) (tenantId : Nat) (startDay endDay : Int) :
    List Int × List JsNum :=
  (seriesLabels tz startDay endDay,
    (seriesLabels tz startDay endDay).map
      (readRevenue ((ordersInRange db tenantId startDay endDay).foldl revenueStep
        (fun _ => none))))

/-- The response of `GET /stats/:tenantId/orders`: labels and data. -/
def ordersSeries (tz : TimeZone) (db : Db) (tenantId : Nat) (startDay endDay : Int) :
    List Int × List Nat :=
  (seriesLabels tz startDay endDay,
    (seriesLabels tz startDay endDay).map
      (readCount ((ordersInRange db tenantId startDay endDay).foldl countStep
        (fun _ => none))))

/-- The tenant's orders whose UTC calendar day is `d`. -/
def ordersOnDay (db : Db) (tenantId : Nat) (d : Int) : List Order :=
  db.orders.filter (fun o => decide (o.storeId = tenantId) && decide (isoDate o.createdAt = d))

/-- The days from `startDay` to `endDay` in ascending order, one entry per day. -/
def daysBetween (startDay endDay : Int) : List Int :=
  (List.range (endDay - startDay + 1).toNat).map (fun i : Nat => startDay + (i : Int))
/-! ## The sync as a sequence of loop iterations (used to state and prove the theorems) -/

/-- One iteration of one of the three loops of `/sync`. -/
inductive SyncStep where
  | customer (c : RemoteCustomer)
  | product (p : RemoteProduct)
  | order (o : RemoteOrder)

/-- Whether the iteration runs to its end, that is, whether the store takes its write. -/
def stepAccepted : SyncStep → Bool
  | SyncStep.customer _ => true
  | SyncStep.product p => productAccepted p
  | SyncStep.order o => orderAccepted o

/-- The database one loop iteration leaves, whether it runs to its end or throws. -/
def runStep (tenant : Tenant) (db : Db) : SyncStep → Db
  | SyncStep.customer c => upsertCustomer db tenant c
  | SyncStep.product p => (upsertProduct db tenant p).getD db
  | SyncStep.order o => (reconcileOrder db tenant o).db

/-- The iterations a run starts, out of those it would make if no write threw: all up to and
including the first one that throws. -/
def executed : List SyncStep → List SyncStep
  | [] => []
  | i :: l => if stepAccepted i then i :: executed l else [i]

/-- The loop iterations a sync makes when no write throws, given the outcomes of the three
fetches. -/
def stepsOf (customersRes : Option (List RemoteCustomer))
    (productsRes : Option (List RemoteProduct)) (ordersRes : Option (List RemoteOrder)) :
    List SyncStep :=
  match customersRes with
  | none => []
  | some cs =>
    cs.map SyncStep.customer ++
      match productsRes with
      | none => []
      | some ps =>
        ps.map SyncStep.product ++
          match ordersRes with
          | none => []
          | some os => os.map SyncStep.order

/-- The test of the order loop that sends an order to the guest branch: the negation of
`o.customer && o.customer.id`. -/
def isGuestOrder (o : RemoteOrder) : Bool :=
  match o.customer with
  | some ref => decide (ref.id = 0)
  | none => true

/-- The customer key a loop iteration upserts, if any. -/
def customerKeysOf : SyncStep → List String
  | SyncStep.customer c => [idKey c.id]
  | SyncStep.product _ => []
  | SyncStep.order o => if isGuestOrder o then [guestKey o.id] else []

/-- The product key a loop iteration upserts, if any. -/
def productKeysOf : SyncStep → List String
  | SyncStep.product p => if productAccepted p then [idKey p.id] else []
  | _ => []

/-- The order key a loop iteration upserts, if any. -/
def orderKeysOf : SyncStep → List String
  | SyncStep.order o => if orderAccepted o then [idKey o.id] else []
  | _ => []

/-- Remote identity and tenant of every customer row. -/
def customerSig (db : Db) : List (String × Nat) :=
  db.customers.map (fun c => (c.shopifyId, c.storeId))

/-- Remote identity and tenant of every product row. -/
def productSig (db : Db) : List (String × Nat) :=
  db.products.map (fun p => (p.shopifyId, p.storeId))

/-- Remote identity and tenant of every order row. -/
def orderSig (db : Db) : List (String × Nat) :=
  db.orders.map (fun o => (o.shopifyId, o.storeId))

/-- The unique constraint on `shopifyId` in the three synced tables. -/
def Db.KeysUnique (db : Db) : Prop :=
  (db.customers.map Customer.shopifyId).Nodup ∧
  (db.products.map Product.shopifyId).Nodup ∧
  (db.orders.map Order.shopifyId).Nodup

/-- What every loop iteration does to the keys of a table: it leaves them alone (and then the
key it touches was present), or it appends the one key it touches, which was absent. -/
def UpsertLike {σ ι : Type} (sig : σ → List (String × Nat)) (K : ι → List String)
    (step : σ → ι → σ) : Prop :=
  ∀ s i, (sig (step s i) = sig s ∧ ∀ k ∈ K i, k ∈ (sig s).map Prod.fst) ∨
    (∃ k n, K i = [k] ∧ k ∉ (sig s).map Prod.fst ∧ sig (step s i) = sig s ++ [(k, n)])

/-- Every customer row carrying a guest key is a guest row (it has the name `Guest`).  This
holds in the empty database and is kept by every loop iteration of `/sync`. -/
def Db.GuestsNamed (db : Db) : Prop :=
  ∀ c ∈ db.customers, ∀ n : Nat, c.shopifyId = guestKey n → c.name = some "Guest"

/-- The order with remote id `n` is stored, and every row stored for it references the
customer row `g`. -/
def Db.OrderLinkedTo (db : Db) (n : Nat) (g : Customer) : Prop :=
  (∃ r ∈ db.orders, r.shopifyId = idKey n) ∧
  ∀ r ∈ db.orders, r.shopifyId = idKey n → r.customerId = some g.id

/-- The customer rows carrying the key `k`. -/
def customersWithKey (db : Db) (k : String) : List Customer :=
  db.customers.filter (fun c => decide (c.shopifyId = k))

/-- The customer key the order loop resolves an order against: the referenced remote id, or
the guest key when the order has no (truthy) customer id. -/
def customerKeyFor (o : RemoteOrder) : String :=
  match o.customer with
  | some ref => if ref.id ≠ 0 then idKey ref.id else guestKey o.id
  | none => guestKey o.id

/-- Every stored order whose key is among the remote orders `done` references an existing
customer row, the one keyed as a remote order of `done` with that id says. -/
def OrdersLinked (db : Db) (done : List RemoteOrder) : Prop :=
  ∀ r ∈ db.orders, r.shopifyId ∈ done.map (fun o => idKey o.id) →
    ∃ o ∈ done, idKey o.id = r.shopifyId ∧
      ∃ c ∈ db.customers, c.shopifyId = customerKeyFor o ∧ r.customerId = some c.id

/-- The remote orders the order loop upserts: those before the first one the store rejects. -/
def upsertedOrders (os : List RemoteOrder) : List RemoteOrder :=
  os.takeWhile orderAccepted

/-- A rational on the binary64 grid: an integer multiple of `2 ^ (-1074)`. -/
def OnGrid (q : ℚ) : Prop := ∃ k : Int, q = (k : ℚ) * pow2 (-1074)

/-- A number that is not `NaN` and, when finite, lies on the binary64 grid. -/
def JsNum.IsDouble : JsNum → Prop
  | JsNum.nan => False
  | JsNum.fin q => OnGrid q
  | JsNum.inf _ => True

/-! ## Example data -/

/-- The empty database with all counters at 1. -/
def emptyDb : Db :=
  { stores := [], customers := [], products := [], orders := [],
    nextCustomerId := 1, nextProductId := 1, nextOrderId := 1 }

/-- A tenant with id 1 owned by user 1. -/
def tenantOne : Tenant :=
  { id := 1, name := "shop", storeUrl := "https://shop.example", apiToken := "token", userId := 1 }

/-- A database of tenant 1 with four customers who spent 50, 200 (in two orders), 75 and
nothing. -/
def spendExampleDb : Db :=
  { stores := [tenantOne]
    customers :=
      [{ id := 1, shopifyId := "11", name := some "Ann", email := some "ann@example.com",
         storeId := 1 },
       { id := 2, shopifyId := "12", name := some "Bob", email := some "bob@example.com",
         storeId := 1 },
       { id := 3, shopifyId := "13", name := some "Cyd", email := some "cyd@example.com",
         storeId := 1 },
       { id := 4, shopifyId := "14", name := some "Dee", email := some "dee@example.com",
         storeId := 1 }]
    products := []
    orders :=
      [{ id := 1, shopifyId := "101", total := JsNum.fin 50, createdAt := 0, storeId := 1,
         customerId := some 1 },
       { id := 2, shopifyId := "102", total := JsNum.fin 120, createdAt := 0, storeId := 1,
         customerId := some 2 },
       { id := 3, shopifyId := "103", total := JsNum.fin 75, createdAt := 0, storeId := 1,
         customerId := some 3 },
       { id := 4, shopifyId := "104", total := JsNum.fin 80, createdAt := 0, storeId := 1,
         customerId := some 2 }]
    nextCustomerId := 5
    nextProductId := 1
    nextOrderId := 5 }

/-- A database of tenant 1 with a single order of total 30 created on 2024-01-02 at
10:00 UTC. -/
def seriesExampleDb : Db :=
  { stores := [tenantOne]
    customers := []
    products := []
    orders :=
      [{ id := 1, shopifyId := "101", total := JsNum.fin 30,
         createdAt := dateOnly (daysFromCivil 2024 1 2) + 36000000, storeId := 1,
         customerId := none }]
    nextCustomerId := 1
    nextProductId := 1
    nextOrderId := 2 }

/-- A remote customers list: an update of the existing customer 11 and a new customer 21
without name. -/
def exampleCustomers : List RemoteCustomer :=
  [{ id := 11, first_name := JsText.str "Ann", email := JsText.str "ann@example.com" },
   { id := 21, first_name := JsText.null, email := JsText.str "eve@example.com" }]

/-- A remote products list: one product priced 12.50 and one without variants. -/
def exampleProducts : List RemoteProduct :=
  [{ id := 31, title := JsText.str "Mug", variants := [{ price := JsText.str "12.50" }] },
   { id := 32, title := JsText.str "Cap", variants := [] }]

/-- A remote order without customer reference. -/
def guestOrder : RemoteOrder :=
  { id := 201, customer := none, total_price := JsText.str "12.50", created_at := some 0 }

/-- A remote order without customer reference and without a readable timestamp. -/
def undatedGuestOrder : RemoteOrder :=
  { id := 203, customer := none, total_price := JsText.str "12.50", created_at := none }

/-- A remote order referencing the remote customer 99, who is unknown locally. -/
def danglingOrder : RemoteOrder :=
  { id := 202, customer := some { id := 99 }, total_price := JsText.str "8",
    created_at := some 0 }

/-- A remote order referencing the unknown remote customer 99, without a readable
timestamp. -/
def undatedDanglingOrder : RemoteOrder :=
  { id := 204, customer := some { id := 99 }, total_price := JsText.str "8",
    created_at := none }

/-- A remote order of the known customer 11. -/
def knownOrder : RemoteOrder :=
  { id := 101, customer := some { id := 11 }, total_price := JsText.str "50",
    created_at := some 0 }

/-- A remote orders list: an order of a known customer, a guest order and an order whose
customer is unknown. -/
def exampleOrders : List RemoteOrder := [knownOrder, guestOrder, danglingOrder]

/-- A remote product whose price text is not a number. -/
def malformedProduct : RemoteProduct :=
  { id := 1, title := JsText.str "Mug", variants := [{ price := JsText.str "abc" }] }

/-- A remote customer with an empty first name. -/
def namelessCustomer : RemoteCustomer :=
  { id := 1, first_name := JsText.str "", email := JsText.str "ann@example.com" }

/-- Whether the order loop can resolve the customer of a remote order against the customer
rows of `db`: the order takes the guest branch, or the referenced customer has a row. -/
def refKnown (db : Db) (o : RemoteOrder) : Bool :=
  isGuestOrder o || decide (customerKeyFor o ∈ db.customers.map Customer.shopifyId)

/-- The customer reference of every stored order whose key is among the remote orders `done`
is the one a remote order of `done` with that id determines: the id of the existing customer
row keyed as the order says when `db0` could resolve it, and null otherwise. -/
def OrdersResolved (db0 db : Db) (done : List RemoteOrder) : Prop :=
  ∀ r ∈ db.orders, r.shopifyId ∈ done.map (fun o => idKey o.id) →
    ∃ o ∈ done, idKey o.id = r.shopifyId ∧
      ((refKnown db0 o = true ∧
          ∃ c ∈ db.customers, c.shopifyId = customerKeyFor o ∧ r.customerId = some c.id) ∨
        (refKnown db0 o = false ∧ r.customerId = none))

/-- The customer rows with a decimal key are those of `db0`. -/
def SameIdKeys (db0 db : Db) : Prop :=
  ∀ n : Nat, idKey n ∈ db.customers.map Customer.shopifyId ↔
    idKey n ∈ db0.customers.map Customer.shopifyId

/-- A database of tenant 1 with a single order of total 30 created on 2024-04-02 at
10:00 UTC. -/
def londonExampleDb : Db :=
  { stores := [tenantOne]
    customers := []
    products := []
    orders :=
      [{ id := 1, shopifyId := "101", total := JsNum.fin 30,
         createdAt := dateOnly (daysFromCivil 2024 4 2) + 36000000, storeId := 1,
         customerId := none }]
    nextCustomerId := 1
    nextProductId := 1
    nextOrderId := 2 }

/-- Whether the characters begin with an unsigned decimal literal: a digit, or a dot followed
by a digit. -/
def startsDecimal : List Char → Bool
  | [] => false
  | c :: rest =>
    c.isDigit ||
      (decide (c = '.') &&
        match rest with
        | d :: _ => d.isDigit
        | [] => false)

/-- The characters of a text after the leading white space and one optional sign. -/
def afterSign (s : String) : List Char :=
  match s.data.dropWhile isStrWhiteSpaceChar with
  | '-' :: r => r
  | '+' :: r => r
  | r => r

/-- Whether a text begins, after white space and an optional sign, with a number in the
sense of `parseFloat`: `Infinity` or a decimal literal. -/
def hasLeadingNumber (s : String) : Bool :=
  "Infinity".data.isPrefixOf (afterSign s) || startsDecimal (afterSign s)

/-- A database of tenant 1 in which the customer enumerated first spent 1e16 in one order and
the second one 1e16 and 1 in two orders: in binary64 both spends are 1e16. -/
def tieExampleDb : Db :=
  { stores := [tenantOne]
    customers :=
      [{ id := 1, shopifyId := "11", name := some "Bea", email := some "bea@example.com",
         storeId := 1 },
       { id := 2, shopifyId := "12", name := some "Abe", email := some "abe@example.com",
         storeId := 1 }]
    products := []
    orders :=
      [{ id := 1, shopifyId := "101", total := JsNum.fin 10000000000000000, createdAt := 0,
         storeId := 1, customerId := some 1 },
       { id := 2, shopifyId := "102", total := JsNum.fin 10000000000000000, createdAt := 0,
         storeId := 1, customerId := some 2 },
       { id := 3, shopifyId := "103", total := JsNum.fin 1, createdAt := 0, storeId := 1,
         customerId := some 2 }]
    nextCustomerId := 3
    nextProductId := 1
    nextOrderId := 4 }
/-! # Theorems -/

/-! ## Lemmas on `upsert` -/

theorem any_key_iff {α : Type} (key : α → String) (rows : List α) (k : String) :
    rows.any (fun r => decide (key r = k)) = true ↔ k ∈ rows.map key := by
  simp only [List.any_eq_true, decide_eq_true_eq, List.mem_map]

theorem upsertRows_of_mem {α : Type} (key : α → String) (rows : List α) (k : String)
    (update : α → α) (fresh : α) (h : k ∈ rows.map key) :
    upsertRows key rows k update fresh =
      rows.map (fun r => if key r = k then update r else r) := by
  unfold upsertRows
  rw [if_pos ((any_key_iff key rows k).2 h)]

theorem upsertRows_of_not_mem {α : Type} (key : α → String) (rows : List α) (k : String)
    (update : α → α) (fresh : α) (h : k ∉ rows.map key) :
    upsertRows key rows k update fresh = rows ++ [fresh] := by
  unfold upsertRows
  rw [if_neg (fun hh => h ((any_key_iff key rows k).1 hh))]

theorem map_update_invariant {α β : Type} (key : α → String) (k : String) (update : α → α)
    (f : α → β) (hf : ∀ r, f (update r) = f r) (rows : List α) :
    (rows.map (fun r => if key r = k then update r else r)).map f = rows.map f := by
  rw [List.map_map]
  apply List.map_congr_left
  intro r _
  simp only [Function.comp]
  split
  · exact hf r
  · rfl

theorem findCustomer_isSome_iff (db : Db) (k : String) :
    (findCustomer db k).isSome = true ↔ k ∈ db.customers.map Customer.shopifyId := by
  unfold findCustomer
  rw [List.find?_isSome]
  simp only [decide_eq_true_eq, List.mem_map]

theorem findCustomer_eq_none_iff (db : Db) (k : String) :
    findCustomer db k = none ↔ k ∉ db.customers.map Customer.shopifyId := by
  rw [← findCustomer_isSome_iff]
  cases findCustomer db k <;> simp

theorem findCustomer_some {db : Db} {k : String} {c : Customer} (h : findCustomer db k = some c) :
    c ∈ db.customers ∧ c.shopifyId = k := by
  unfold findCustomer at h
  have h1 := List.mem_of_find?_eq_some h
  have h2 := List.find?_some h
  exact ⟨h1, by simpa using h2⟩
/-! ## Folding steps that upsert by key -/

theorem UpsertLike.stable_step {σ ι : Type} {sig : σ → List (String × Nat)}
    {K : ι → List String} {step : σ → ι → σ} (H : UpsertLike sig K step) (s : σ) (i : ι)
    (h : ∀ k ∈ K i, k ∈ (sig s).map Prod.fst) : sig (step s i) = sig s := by
  rcases H s i with ⟨h1, _⟩ | ⟨k, n, hk, hnot, _⟩
  · exact h1
  · exact absurd (h k (by rw [hk]; exact List.mem_singleton_self k)) hnot

theorem UpsertLike.mono_step {σ ι : Type} {sig : σ → List (String × Nat)}
    {K : ι → List String} {step : σ → ι → σ} (H : UpsertLike sig K step) (s : σ) (i : ι)
    (k : String) (h : k ∈ (sig s).map Prod.fst) : k ∈ (sig (step s i)).map Prod.fst := by
  rcases H s i with ⟨h1, _⟩ | ⟨k1, n, _, _, h2⟩
  · rw [h1]; exact h
  · rw [h2, List.map_append]; exact List.mem_append_left _ h

theorem UpsertLike.covers_step {σ ι : Type} {sig : σ → List (String × Nat)}
    {K : ι → List String} {step : σ → ι → σ} (H : UpsertLike sig K step) (s : σ) (i : ι)
    (k : String) (h : k ∈ K i) : k ∈ (sig (step s i)).map Prod.fst := by
  rcases H s i with ⟨h1, h2⟩ | ⟨k1, n, hk, _, h2⟩
  · rw [h1]; exact h2 k h
  · rw [hk, List.mem_singleton] at h
    subst h
    rw [h2, List.map_append]
    exact List.mem_append_right _ (by simp)

theorem UpsertLike.nodup_step {σ ι : Type} {sig : σ → List (String × Nat)}
    {K : ι → List String} {step : σ → ι → σ} (H : UpsertLike sig K step) (s : σ) (i : ι)
    (h : ((sig s).map Prod.fst).Nodup) : ((sig (step s i)).map Prod.fst).Nodup := by
  rcases H s i with ⟨h1, _⟩ | ⟨k1, n, _, hnot, h2⟩
  · rw [h1]; exact h
  · rw [h2, List.map_append]
    refine List.Nodup.append h (by simp) ?_
    intro a ha hb
    simp only [List.map_cons, List.map_nil, List.mem_singleton] at hb
    subst hb
    exact hnot ha

theorem UpsertLike.mono {σ ι : Type} {sig : σ → List (String × Nat)}
    {K : ι → List String} {step : σ → ι → σ} (H : UpsertLike sig K step) (l : List ι) :
    ∀ (s : σ) (k : String), k ∈ (sig s).map Prod.fst →
      k ∈ (sig (l.foldl step s)).map Prod.fst := by
  induction l with
  | nil => intro s k h; exact h
  | cons i l ih =>
    intro s k h
    rw [List.foldl_cons]
    exact ih _ k (H.mono_step s i k h)

theorem UpsertLike.covers {σ ι : Type} {sig : σ → List (String × Nat)}
    {K : ι → List String} {step : σ → ι → σ} (H : UpsertLike sig K step) (l : List ι) :
    ∀ (s : σ) (i : ι), i ∈ l → ∀ k ∈ K i, k ∈ (sig (l.foldl step s)).map Prod.fst := by
  induction l with
  | nil => intro s i hi; exact absurd hi (List.not_mem_nil i)
  | cons j l ih =>
    intro s i hi k hk
    rw [List.foldl_cons]
    rcases List.mem_cons.1 hi with rfl | hi
    · exact H.mono l _ k (H.covers_step s i k hk)
    · exact ih _ i hi k hk

theorem UpsertLike.stable {σ ι : Type} {sig : σ → List (String × Nat)}
    {K : ι → List String} {step : σ → ι → σ} (H : UpsertLike sig K step) (l : List ι) :
    ∀ (s : σ), (∀ i ∈ l, ∀ k ∈ K i, k ∈ (sig s).map Prod.fst) →
      sig (l.foldl step s) = sig s := by
  induction l with
  | nil => intro s _; rfl
  | cons i l ih =>
    intro s h
    rw [List.foldl_cons]
    have h1 : sig (step s i) = sig s :=
      H.stable_step s i (h i (List.mem_cons_self i l))
    rw [ih (step s i) (by
      intro j hj k hk
      rw [h1]
      exact h j (List.mem_cons_of_mem i hj) k hk), h1]

theorem UpsertLike.nodup {σ ι : Type} {sig : σ → List (String × Nat)}
    {K : ι → List String} {step : σ → ι → σ} (H : UpsertLike sig K step) (l : List ι) :
    ∀ (s : σ), ((sig s).map Prod.fst).Nodup → ((sig (l.foldl step s)).map Prod.fst).Nodup := by
  induction l with
  | nil => intro s h; exact h
  | cons i l ih =>
    intro s h
    rw [List.foldl_cons]
    exact ih _ (H.nodup_step s i h)

/-- Running the same steps a second time changes no key and no tenant of the table. -/
theorem UpsertLike.rerun {σ ι : Type} {sig : σ → List (String × Nat)}
    {K : ι → List String} {step : σ → ι → σ} (H : UpsertLike sig K step) (l : List ι) (s : σ) :
    sig (l.foldl step (l.foldl step s)) = sig (l.foldl step s) :=
  H.stable l _ (fun i hi k hk => H.covers l s i hi k hk)

/-! ## Every loop iteration is an upsert by key -/

theorem customerSig_keys (db : Db) :
    (customerSig db).map Prod.fst = db.customers.map Customer.shopifyId := by
  simp [customerSig, List.map_map, Function.comp]

theorem productSig_keys (db : Db) :
    (productSig db).map Prod.fst = db.products.map Product.shopifyId := by
  simp [productSig, List.map_map, Function.comp]

theorem orderSig_keys (db : Db) :
    (orderSig db).map Prod.fst = db.orders.map Order.shopifyId := by
  simp [orderSig, List.map_map, Function.comp]

theorem upsertProduct_rejected (db : Db) (t : Tenant) (p : RemoteProduct)
    (h : productAccepted p = false) : upsertProduct db t p = none := by
  unfold upsertProduct
  rw [if_neg (by simp [h])]

theorem upsertProduct_accepted (db : Db) (t : Tenant) (p : RemoteProduct)
    (h : productAccepted p = true) :
    upsertProduct db t p =
      some { db with
        products := upsertRows Product.shopifyId db.products (idKey p.id)
          (fun r => { r with title := p.title.updateColumn r.title, price := productPrice p })
          { id := db.nextProductId, shopifyId := idKey p.id, title := p.title.toColumn,
            price := productPrice p, storeId := t.id }
        nextProductId :=
          if db.products.any (fun r => decide (r.shopifyId = idKey p.id)) then db.nextProductId
          else db.nextProductId + 1 } := by
  unfold upsertProduct
  rw [if_pos h]

theorem upsertOrder_rejected (db : Db) (t : Tenant) (o : RemoteOrder) (cid : Option Nat)
    (h : orderAccepted o = false) : upsertOrder db t o cid = none := by
  unfold upsertOrder
  unfold orderAccepted at h
  cases hc : o.created_at with
  | none => rfl
  | some ts =>
    rw [hc] at h
    simp only [Option.isSome_some, Bool.true_and] at h
    simp [h]

theorem upsertOrder_accepted (db : Db) (t : Tenant) (o : RemoteOrder) (cid : Option Nat)
    (h : orderAccepted o = true) :
    ∃ ts : Int, o.created_at = some ts ∧ (parseFloatText o.total_price).isFinite = true ∧
      upsertOrder db t o cid =
        some { db with
          orders := upsertRows Order.shopifyId db.orders (idKey o.id)
            (fun r => { r with total := parseFloatText o.total_price, createdAt := ts,
                               customerId := cid })
            { id := db.nextOrderId, shopifyId := idKey o.id,
              total := parseFloatText o.total_price, createdAt := ts, storeId := t.id,
              customerId := cid }
          nextOrderId :=
            if db.orders.any (fun r => decide (r.shopifyId = idKey o.id)) then db.nextOrderId
            else db.nextOrderId + 1 } := by
  unfold orderAccepted at h
  cases hc : o.created_at with
  | none => rw [hc] at h; simp at h
  | some ts =>
    rw [hc] at h
    simp only [Option.isSome_some, Bool.true_and] at h
    refine ⟨ts, rfl, h, ?_⟩
    unfold upsertOrder
    rw [hc]
    simp only [h, if_true]

theorem upsertCustomer_products (db : Db) (t : Tenant) (c : RemoteCustomer) :
    (upsertCustomer db t c).products = db.products := rfl

theorem upsertCustomer_orders (db : Db) (t : Tenant) (c : RemoteCustomer) :
    (upsertCustomer db t c).orders = db.orders := rfl

theorem upsertGuest_products (db : Db) (t : Tenant) (o : RemoteOrder) :
    (upsertGuest db t o).1.products = db.products := by
  unfold upsertGuest
  split <;> rfl

theorem upsertGuest_orders (db : Db) (t : Tenant) (o : RemoteOrder) :
    (upsertGuest db t o).1.orders = db.orders := by
  unfold upsertGuest
  split <;> rfl

theorem upsertGuest_stores (db : Db) (t : Tenant) (o : RemoteOrder) :
    (upsertGuest db t o).1.stores = db.stores := by
  unfold upsertGuest
  split <;> rfl

theorem resolveCustomer_guest (db : Db) (t : Tenant) (o : RemoteOrder)
    (h : isGuestOrder o = true) :
    resolveCustomer db t o = ((upsertGuest db t o).1, some (upsertGuest db t o).2) := by
  unfold resolveCustomer
  unfold isGuestOrder at h
  split
  · rename_i ref hc
    rw [hc] at h
    simp only [decide_eq_true_eq] at h
    simp [h]
  · rfl

theorem resolveCustomer_ref (db : Db) (t : Tenant) (o : RemoteOrder)
    (h : isGuestOrder o = false) :
    ∃ ref, o.customer = some ref ∧ ref.id ≠ 0 ∧
      resolveCustomer db t o = (db, (findCustomer db (idKey ref.id)).map Customer.id) := by
  unfold isGuestOrder at h
  unfold resolveCustomer
  split at h
  · rename_i ref hc
    simp only [decide_eq_false_iff_not] at h
    refine ⟨ref, hc, h, ?_⟩
    simp only [hc, h, ne_eq, not_false_eq_true, if_true]
    cases findCustomer db (idKey ref.id) <;> rfl
  · exact absurd h (by simp)

theorem resolveCustomer_products (db : Db) (t : Tenant) (o : RemoteOrder) :
    (resolveCustomer db t o).1.products = db.products := by
  cases h : isGuestOrder o
  · obtain ⟨ref, _, _, h2⟩ := resolveCustomer_ref db t o h
    rw [h2]
  · rw [resolveCustomer_guest db t o h]
    exact upsertGuest_products db t o

theorem resolveCustomer_orders (db : Db) (t : Tenant) (o : RemoteOrder) :
    (resolveCustomer db t o).1.orders = db.orders := by
  cases h : isGuestOrder o
  · obtain ⟨ref, _, _, h2⟩ := resolveCustomer_ref db t o h
    rw [h2]
  · rw [resolveCustomer_guest db t o h]
    exact upsertGuest_orders db t o

theorem resolveCustomer_stores (db : Db) (t : Tenant) (o : RemoteOrder) :
    (resolveCustomer db t o).1.stores = db.stores := by
  cases h : isGuestOrder o
  · obtain ⟨ref, _, _, h2⟩ := resolveCustomer_ref db t o h
    rw [h2]
  · rw [resolveCustomer_guest db t o h]
    exact upsertGuest_stores db t o

theorem reconcileOrder_rejected (db : Db) (t : Tenant) (o : RemoteOrder)
    (h : orderAccepted o = false) :
    reconcileOrder db t o = LoopResult.threw (resolveCustomer db t o).1 := by
  unfold reconcileOrder
  rw [upsertOrder_rejected _ t o _ h]

theorem reconcileOrder_accepted (db : Db) (t : Tenant) (o : RemoteOrder)
    (h : orderAccepted o = true) :
    ∃ db1, upsertOrder (resolveCustomer db t o).1 t o (resolveCustomer db t o).2 = some db1 ∧
      reconcileOrder db t o = LoopResult.done db1 := by
  obtain ⟨ts, _, _, h3⟩ :=
    upsertOrder_accepted (resolveCustomer db t o).1 t o (resolveCustomer db t o).2 h
  refine ⟨_, h3, ?_⟩
  unfold reconcileOrder
  rw [h3]

theorem upsertOrder_customers (db db1 : Db) (t : Tenant) (o : RemoteOrder) (cid : Option Nat)
    (h : upsertOrder db t o cid = some db1) :
    db1.customers = db.customers ∧ db1.products = db.products ∧ db1.stores = db.stores := by
  unfold upsertOrder at h
  split at h
  · cases h
  · split at h
    · cases h
      exact ⟨rfl, rfl, rfl⟩
    · cases h

theorem reconcileOrder_customers (db : Db) (t : Tenant) (o : RemoteOrder) :
    (reconcileOrder db t o).db.customers = (resolveCustomer db t o).1.customers := by
  cases h : orderAccepted o
  · rw [reconcileOrder_rejected db t o h]
    rfl
  · obtain ⟨db1, h1, h2⟩ := reconcileOrder_accepted db t o h
    rw [h2]
    exact (upsertOrder_customers _ _ t o _ h1).1

theorem reconcileOrder_products (db : Db) (t : Tenant) (o : RemoteOrder) :
    (reconcileOrder db t o).db.products = db.products := by
  cases h : orderAccepted o
  · rw [reconcileOrder_rejected db t o h]
    exact resolveCustomer_products db t o
  · obtain ⟨db1, h1, h2⟩ := reconcileOrder_accepted db t o h
    rw [h2]
    exact (upsertOrder_customers _ _ t o _ h1).2.1.trans (resolveCustomer_products db t o)

theorem reconcileOrder_stores (db : Db) (t : Tenant) (o : RemoteOrder) :
    (reconcileOrder db t o).db.stores = db.stores := by
  cases h : orderAccepted o
  · rw [reconcileOrder_rejected db t o h]
    exact resolveCustomer_stores db t o
  · obtain ⟨db1, h1, h2⟩ := reconcileOrder_accepted db t o h
    rw [h2]
    exact (upsertOrder_customers _ _ t o _ h1).2.2.trans (resolveCustomer_stores db t o)

theorem reconcileOrder_orders_rejected (db : Db) (t : Tenant) (o : RemoteOrder)
    (h : orderAccepted o = false) : (reconcileOrder db t o).db.orders = db.orders := by
  rw [reconcileOrder_rejected db t o h]
  exact resolveCustomer_orders db t o

/-- The order rows after an accepted order iteration. -/
theorem reconcileOrder_orders_accepted (db : Db) (t : Tenant) (o : RemoteOrder)
    (h : orderAccepted o = true) :
    ∃ ts : Int, o.created_at = some ts ∧ (parseFloatText o.total_price).isFinite = true ∧
      (reconcileOrder db t o).db.orders =
        upsertRows Order.shopifyId db.orders (idKey o.id)
          (fun r => { r with total := parseFloatText o.total_price, createdAt := ts,
                             customerId := (resolveCustomer db t o).2 })
          { id := (resolveCustomer db t o).1.nextOrderId, shopifyId := idKey o.id,
            total := parseFloatText o.total_price, createdAt := ts, storeId := t.id,
            customerId := (resolveCustomer db t o).2 } := by
  obtain ⟨ts, h1, h2, h3⟩ :=
    upsertOrder_accepted (resolveCustomer db t o).1 t o (resolveCustomer db t o).2 h
  refine ⟨ts, h1, h2, ?_⟩
  unfold reconcileOrder
  rw [h3]
  simp only [LoopResult.db, resolveCustomer_orders]

theorem upsertGuest_customers_of_mem (db : Db) (t : Tenant) (o : RemoteOrder)
    (h : guestKey o.id ∈ db.customers.map Customer.shopifyId) :
    (upsertGuest db t o).1 = db := by
  unfold upsertGuest
  split
  · rfl
  · rename_i hnone
    exact absurd h ((findCustomer_eq_none_iff db _).1 hnone)

theorem upsertGuest_customers_of_not_mem (db : Db) (t : Tenant) (o : RemoteOrder)
    (h : guestKey o.id ∉ db.customers.map Customer.shopifyId) :
    (upsertGuest db t o).1.customers =
      db.customers ++ [{ id := db.nextCustomerId, shopifyId := guestKey o.id,
                         name := some "Guest", email := some "guest@example.com",
                         storeId := t.id }] := by
  unfold upsertGuest
  rw [(findCustomer_eq_none_iff db _).2 h]

theorem customer_upsertLike (t : Tenant) :
    UpsertLike customerSig customerKeysOf (runStep t) := by
  intro db i
  rw [customerSig_keys]
  cases i with
  | customer c =>
    by_cases h : idKey c.id ∈ db.customers.map Customer.shopifyId
    · left
      refine ⟨?_, ?_⟩
      · simp only [runStep, customerSig, upsertCustomer]
        rw [upsertRows_of_mem _ _ _ _ _ h]
        refine map_update_invariant _ _ _ _ ?_ _
        intro r
        rfl
      · intro k hk
        simp only [customerKeysOf, List.mem_singleton] at hk
        rw [hk]; exact h
    · right
      refine ⟨idKey c.id, t.id, rfl, h, ?_⟩
      simp only [runStep, customerSig, upsertCustomer]
      rw [upsertRows_of_not_mem _ _ _ _ _ h, List.map_append]
      rfl
  | product p =>
    left
    refine ⟨?_, fun k hk => absurd hk (List.not_mem_nil k)⟩
    simp only [runStep, customerSig]
    cases h : productAccepted p
    · rw [upsertProduct_rejected db t p h]; rfl
    · rw [upsertProduct_accepted db t p h]; rfl
  | order o =>
    cases hg : isGuestOrder o
    · left
      obtain ⟨ref, _, _, h2⟩ := resolveCustomer_ref db t o hg
      refine ⟨?_, ?_⟩
      · simp only [runStep, customerSig, reconcileOrder_customers, h2]
      · intro k hk
        simp [customerKeysOf, hg] at hk
    · by_cases h : guestKey o.id ∈ db.customers.map Customer.shopifyId
      · left
        refine ⟨?_, ?_⟩
        · simp only [runStep, customerSig, reconcileOrder_customers,
            resolveCustomer_guest db t o hg, upsertGuest_customers_of_mem db t o h]
        · intro k hk
          simp only [customerKeysOf, hg, if_true, List.mem_singleton] at hk
          rw [hk]; exact h
      · right
        refine ⟨guestKey o.id, t.id, by simp [customerKeysOf, hg], h, ?_⟩
        simp only [runStep, customerSig, reconcileOrder_customers,
          resolveCustomer_guest db t o hg, upsertGuest_customers_of_not_mem db t o h,
          List.map_append]
        rfl

theorem product_upsertLike (t : Tenant) :
    UpsertLike productSig productKeysOf (runStep t) := by
  intro db i
  rw [productSig_keys]
  cases i with
  | customer c =>
    left
    exact ⟨rfl, fun k hk => absurd hk (List.not_mem_nil k)⟩
  | product p =>
    cases ha : productAccepted p
    · left
      refine ⟨?_, ?_⟩
      · simp only [runStep, upsertProduct_rejected db t p ha, Option.getD_none]
      · intro k hk
        simp [productKeysOf, ha] at hk
    · by_cases h : idKey p.id ∈ db.products.map Product.shopifyId
      · left
        refine ⟨?_, ?_⟩
        · simp only [runStep, productSig, upsertProduct_accepted db t p ha, Option.getD_some]
          rw [upsertRows_of_mem _ _ _ _ _ h]
          refine map_update_invariant _ _ _ _ ?_ _
          intro r
          rfl
        · intro k hk
          simp only [productKeysOf, ha, if_true, List.mem_singleton] at hk
          rw [hk]; exact h
      · right
        refine ⟨idKey p.id, t.id, by simp [productKeysOf, ha], h, ?_⟩
        simp only [runStep, productSig, upsertProduct_accepted db t p ha, Option.getD_some]
        rw [upsertRows_of_not_mem _ _ _ _ _ h, List.map_append]
        rfl
  | order o =>
    left
    refine ⟨?_, fun k hk => absurd hk (List.not_mem_nil k)⟩
    simp only [runStep, productSig, reconcileOrder_products]

theorem order_upsertLike (t : Tenant) :
    UpsertLike orderSig orderKeysOf (runStep t) := by
  intro db i
  rw [orderSig_keys]
  cases i with
  | customer c =>
    left
    exact ⟨rfl, fun k hk => absurd hk (List.not_mem_nil k)⟩
  | product p =>
    left
    refine ⟨?_, fun k hk => absurd hk (List.not_mem_nil k)⟩
    simp only [runStep, orderSig]
    cases h : productAccepted p
    · rw [upsertProduct_rejected db t p h]; rfl
    · rw [upsertProduct_accepted db t p h]; rfl
  | order o =>
    cases ha : orderAccepted o
    · left
      refine ⟨?_, ?_⟩
      · simp only [runStep, orderSig, reconcileOrder_orders_rejected db t o ha]
      · intro k hk
        simp [orderKeysOf, ha] at hk
    · obtain ⟨ts, _, _, ho⟩ := reconcileOrder_orders_accepted db t o ha
      by_cases h : idKey o.id ∈ db.orders.map Order.shopifyId
      · left
        refine ⟨?_, ?_⟩
        · simp only [runStep, orderSig, ho]
          rw [upsertRows_of_mem _ _ _ _ _ h]
          refine map_update_invariant _ _ _ _ ?_ _
          intro r
          rfl
        · intro k hk
          simp only [orderKeysOf, ha, if_true, List.mem_singleton] at hk
          rw [hk]; exact h
      · right
        refine ⟨idKey o.id, t.id, by simp [orderKeysOf, ha], h, ?_⟩
        simp only [runStep, orderSig, ho]
        rw [upsertRows_of_not_mem _ _ _ _ _ h, List.map_append]
        rfl

/-! ## The sync as a fold over the iterations it starts -/

theorem executed_of_all (l : List SyncStep) (h : ∀ i ∈ l, stepAccepted i = true) :
    executed l = l := by
  induction l with
  | nil => rfl
  | cons i l ih =>
    simp only [executed, h i (List.mem_cons_self i l), if_true]
    rw [ih (fun j hj => h j (List.mem_cons_of_mem i hj))]

theorem executed_append_of_all (l1 l2 : List SyncStep)
    (h : ∀ i ∈ l1, stepAccepted i = true) : executed (l1 ++ l2) = l1 ++ executed l2 := by
  induction l1 with
  | nil => rfl
  | cons i l ih =>
    show executed (i :: (l ++ l2)) = i :: (l ++ executed l2)
    simp only [executed, h i (List.mem_cons_self i l), if_true]
    rw [ih (fun j hj => h j (List.mem_cons_of_mem i hj))]

theorem executed_append_of_not_all (l1 l2 : List SyncStep)
    (h : ¬ ∀ i ∈ l1, stepAccepted i = true) : executed (l1 ++ l2) = executed l1 := by
  induction l1 with
  | nil => exact absurd (fun i hi => absurd hi (List.not_mem_nil i)) h
  | cons i l ih =>
    show executed (i :: (l ++ l2)) = executed (i :: l)
    simp only [executed]
    cases hi : stepAccepted i
    · simp
    · simp only [if_true]
      rw [ih]
      intro hall
      apply h
      intro j hj
      rcases List.mem_cons.1 hj with rfl | hj
      · exact hi
      · exact hall j hj

theorem reconcileCustomers_eq_fold (db : Db) (t : Tenant) (cs : List RemoteCustomer) :
    reconcileCustomers db t cs = (cs.map SyncStep.customer).foldl (runStep t) db := by
  unfold reconcileCustomers
  rw [List.foldl_map]
  rfl

theorem reconcileProducts_spec (t : Tenant) (ps : List RemoteProduct) : ∀ db : Db,
    (reconcileProducts db t ps).db =
      (executed (ps.map SyncStep.product)).foldl (runStep t) db ∧
    ((reconcileProducts db t ps).isDone = true ↔ ∀ p ∈ ps, productAccepted p = true) := by
  induction ps with
  | nil => intro db; exact ⟨rfl, by simp [reconcileProducts, LoopResult.isDone]⟩
  | cons p ps ih =>
    intro db
    cases ha : productAccepted p
    · have h1 : reconcileProducts db t (p :: ps) = LoopResult.threw db := by
        simp only [reconcileProducts, upsertProduct_rejected db t p ha]
      rw [h1]
      refine ⟨?_, ?_⟩
      · simp only [List.map_cons, executed, stepAccepted, ha, LoopResult.db]
        simp [runStep, upsertProduct_rejected db t p ha]
      · simp [LoopResult.isDone, ha]
    · have h2 := upsertProduct_accepted db t p ha
      have h1 : reconcileProducts db t (p :: ps) =
          reconcileProducts (runStep t db (SyncStep.product p)) t ps := by
        simp only [reconcileProducts, runStep, h2, Option.getD_some]
      rw [h1]
      refine ⟨?_, ?_⟩
      · rw [(ih _).1]
        simp only [List.map_cons, executed, stepAccepted, ha, if_true, List.foldl_cons]
      · rw [(ih _).2]
        simp [ha]

theorem reconcileOrders_spec (t : Tenant) (os : List RemoteOrder) : ∀ db : Db,
    (reconcileOrders db t os).db =
      (executed (os.map SyncStep.order)).foldl (runStep t) db ∧
    ((reconcileOrders db t os).isDone = true ↔ ∀ o ∈ os, orderAccepted o = true) := by
  induction os with
  | nil => intro db; exact ⟨rfl, by simp [reconcileOrders, LoopResult.isDone]⟩
  | cons o os ih =>
    intro db
    cases ha : orderAccepted o
    · have h1 : reconcileOrders db t (o :: os) =
          LoopResult.threw (resolveCustomer db t o).1 := by
        simp only [reconcileOrders, reconcileOrder_rejected db t o ha]
      rw [h1]
      refine ⟨?_, ?_⟩
      · simp only [List.map_cons, executed, stepAccepted, ha, LoopResult.db]
        simp [runStep, reconcileOrder_rejected db t o ha, LoopResult.db]
      · simp [LoopResult.isDone, ha]
    · obtain ⟨db1, _, h2⟩ := reconcileOrder_accepted db t o ha
      have h1 : reconcileOrders db t (o :: os) =
          reconcileOrders (runStep t db (SyncStep.order o)) t os := by
        simp only [reconcileOrders, runStep, h2, LoopResult.db]
      rw [h1]
      refine ⟨?_, ?_⟩
      · rw [(ih _).1]
        simp only [List.map_cons, executed, stepAccepted, ha, if_true, List.foldl_cons]
      · rw [(ih _).2]
        simp [ha]

theorem isDone_iff (r : LoopResult) : r.isDone = true ↔ r = LoopResult.done r.db := by
  cases r <;> simp [LoopResult.isDone, LoopResult.db]

theorem not_isDone_iff (r : LoopResult) : r.isDone = false ↔ r = LoopResult.threw r.db := by
  cases r <;> simp [LoopResult.isDone, LoopResult.db]

theorem customers_accepted (cs : List RemoteCustomer) :
    ∀ i ∈ cs.map SyncStep.customer, stepAccepted i = true := by
  intro i hi
  obtain ⟨c, _, rfl⟩ := List.mem_map.1 hi
  rfl

theorem products_accepted_iff (ps : List RemoteProduct) :
    (∀ i ∈ ps.map SyncStep.product, stepAccepted i = true) ↔
      ∀ p ∈ ps, productAccepted p = true := by
  constructor
  · intro h p hp
    exact h _ (List.mem_map_of_mem _ hp)
  · intro h i hi
    obtain ⟨p, hp, rfl⟩ := List.mem_map.1 hi
    exact h p hp

/-- The database a sync leaves is the fold of the loop iterations it starts. -/
theorem syncTenant_fst (sumOf : List JsNum → JsNum) (db : Db) (t : Tenant)
    (fc : Option (List RemoteCustomer)) (fp : Option (List RemoteProduct))
    (fo : Option (List RemoteOrder)) :
    (syncTenant sumOf db t fc fp fo).1 =
      (executed (stepsOf fc fp fo)).foldl (runStep t) db := by
  unfold syncTenant stepsOf
  cases fc with
  | none => rfl
  | some cs =>
    cases fp with
    | none =>
      simp only [List.append_nil]
      rw [executed_of_all _ (customers_accepted cs), reconcileCustomers_eq_fold]
    | some ps =>
      simp only
      rw [executed_append_of_all _ _ (customers_accepted cs), List.foldl_append,
        ← reconcileCustomers_eq_fold]
      have hp := reconcileProducts_spec t ps (reconcileCustomers db t cs)
      generalize reconcileCustomers db t cs = db1 at hp ⊢
      cases hr : reconcileProducts db1 t ps with
      | threw db2 =>
        rw [hr] at hp
        simp only [LoopResult.db, LoopResult.isDone] at hp
        have hall : ¬ ∀ i ∈ ps.map SyncStep.product, stepAccepted i = true := by
          intro h
          have := hp.2.2 ((products_accepted_iff ps).1 h)
          cases this
        rw [executed_append_of_not_all _ _ hall]
        exact hp.1
      | done db2 =>
        rw [hr] at hp
        simp only [LoopResult.db, LoopResult.isDone, true_iff] at hp
        have hall := (products_accepted_iff ps).2 hp.2
        rw [executed_append_of_all _ _ hall, List.foldl_append]
        have h1 := hp.1
        rw [executed_of_all _ hall] at h1
        rw [← h1]
        cases fo with
        | none => rfl
        | some os =>
          simp only
          have ho := (reconcileOrders_spec t os db2).1
          rw [← ho]
          cases reconcileOrders db2 t os <;> rfl

theorem runStep_stores (t : Tenant) (db : Db) (i : SyncStep) :
    (runStep t db i).stores = db.stores := by
  cases i with
  | customer c => rfl
  | product p =>
    simp only [runStep]
    cases h : productAccepted p
    · rw [upsertProduct_rejected db t p h]; rfl
    · rw [upsertProduct_accepted db t p h]; rfl
  | order o => exact reconcileOrder_stores db t o

theorem fold_runStep_stores (t : Tenant) (l : List SyncStep) :
    ∀ db : Db, (l.foldl (runStep t) db).stores = db.stores := by
  induction l with
  | nil => intro db; rfl
  | cons i l ih =>
    intro db
    rw [List.foldl_cons, ih, runStep_stores]

theorem countCustomers_eq_sig (db : Db) (n : Nat) :
    countCustomers db n = ((customerSig db).filter (fun p => decide (p.2 = n))).length := by
  unfold countCustomers customerSig
  rw [List.filter_map, List.length_map]
  rfl

theorem countProducts_eq_sig (db : Db) (n : Nat) :
    countProducts db n = ((productSig db).filter (fun p => decide (p.2 = n))).length := by
  unfold countProducts productSig
  rw [List.filter_map, List.length_map]
  rfl

theorem countOrders_eq_sig (db : Db) (n : Nat) :
    countOrders db n = ((orderSig db).filter (fun p => decide (p.2 = n))).length := by
  unfold countOrders orderSig
  rw [List.filter_map, List.length_map]
  rfl

/-- Every loop iteration keeps the remote identities unique. -/
theorem fold_keysUnique (t : Tenant) (l : List SyncStep) (db : Db) (h : db.KeysUnique) :
    (l.foldl (runStep t) db).KeysUnique := by
  obtain ⟨hc, hp, ho⟩ := h
  refine ⟨?_, ?_, ?_⟩
  · rw [← customerSig_keys] at hc ⊢
    exact (customer_upsertLike t).nodup l db hc
  · rw [← productSig_keys] at hp ⊢
    exact (product_upsertLike t).nodup l db hp
  · rw [← orderSig_keys] at ho ⊢
    exact (order_upsertLike t).nodup l db ho

/-- C1. Sync is idempotent on counts and keys: when the remote identities are unique per
table, running `/sync` twice in a row with the same fetch outcomes leaves the same number of
customers, products and orders of the tenant as running it once, and after either run the
remote identities are still unique in each table. -/
theorem sync_twice_counts_and_keys (sumOf : List JsNum → JsNum) (db : Db)
    (tenantId userId : Nat)
    (customersRes : Option (List RemoteCustomer)) (productsRes : Option (List RemoteProduct))
    (ordersRes : Option (List RemoteOrder)) (h : db.KeysUnique) :
    (countCustomers
        (syncHandler sumOf
          (syncHandler sumOf db tenantId userId customersRes productsRes ordersRes).1
          tenantId userId customersRes productsRes ordersRes).1 tenantId =
      countCustomers
        (syncHandler sumOf db tenantId userId customersRes productsRes ordersRes).1
        tenantId) ∧
    (countProducts
        (syncHandler sumOf
          (syncHandler sumOf db tenantId userId customersRes productsRes ordersRes).1
          tenantId userId customersRes productsRes ordersRes).1 tenantId =
      countProducts
        (syncHandler sumOf db tenantId userId customersRes productsRes ordersRes).1
        tenantId) ∧
    (countOrders
        (syncHandler sumOf
          (syncHandler sumOf db tenantId userId customersRes productsRes ordersRes).1
          tenantId userId customersRes productsRes ordersRes).1 tenantId =
      countOrders
        (syncHandler sumOf db tenantId userId customersRes productsRes ordersRes).1
        tenantId) ∧
    (syncHandler sumOf db tenantId userId customersRes productsRes ordersRes).1.KeysUnique ∧
    (syncHandler sumOf
      (syncHandler sumOf db tenantId userId customersRes productsRes ordersRes).1
      tenantId userId customersRes productsRes ordersRes).1.KeysUnique := by
  unfold syncHandler
  cases hf : db.stores.find? (fun t => decide (t.id = tenantId ∧ t.userId = userId)) with
  | none =>
    simp only [hf]
    exact ⟨trivial, trivial, trivial, h, h⟩
  | some t =>
    simp only
    have hs : (syncTenant sumOf db t customersRes productsRes ordersRes).1.stores =
        db.stores := by
      rw [syncTenant_fst]
      exact fold_runStep_stores t _ db
    rw [hs, hf]
    simp only [syncTenant_fst]
    refine ⟨?_, ?_, ?_, fold_keysUnique t _ db h, fold_keysUnique t _ _ (fold_keysUnique t _ db h)⟩
    · rw [countCustomers_eq_sig, countCustomers_eq_sig, (customer_upsertLike t).rerun]
    · rw [countProducts_eq_sig, countProducts_eq_sig, (product_upsertLike t).rerun]
    · rw [countOrders_eq_sig, countOrders_eq_sig, (order_upsertLike t).rerun]

/-! ## Keys: decimal ids and guest keys never coincide -/

theorem digitChar_isDigit : ∀ k, k < 10 → (Nat.digitChar k).isDigit = true := by decide

theorem toDigitsCore_isDigit (fuel : Nat) : ∀ (n : Nat) (ds : List Char),
    (∀ c ∈ ds, c.isDigit = true) → ∀ c ∈ Nat.toDigitsCore 10 fuel n ds, c.isDigit = true := by
  induction fuel with
  | zero => intro n ds h; simpa [Nat.toDigitsCore] using h
  | succ f ih =>
    intro n ds h
    simp only [Nat.toDigitsCore]
    have hd : (Nat.digitChar (n % 10)).isDigit = true :=
      digitChar_isDigit _ (Nat.mod_lt _ (by decide))
    have h2 : ∀ c ∈ Nat.digitChar (n % 10) :: ds, c.isDigit = true := by
      intro c hc
      rcases List.mem_cons.1 hc with rfl | hc
      · exact hd
      · exact h c hc
    split
    · exact h2
    · exact ih _ _ h2

theorem toString_nat_isDigit (n : Nat) : ∀ c ∈ (toString n).data, c.isDigit = true := by
  show ∀ c ∈ (Nat.repr n).data, c.isDigit = true
  unfold Nat.repr Nat.toDigits
  exact toDigitsCore_isDigit _ _ _ (by simp)

theorem idKey_ne_guestKey (n m : Nat) : idKey n ≠ guestKey m := by
  intro h
  unfold idKey guestKey at h
  have h1 := toString_nat_isDigit n 'g' (by rw [h]; simp [String.data_append])
  exact absurd h1 (by decide)

/-! ## The rows carrying one key -/

theorem filter_key_of_nodup {α : Type} (key : α → String) (k : String) :
    ∀ (rows : List α), (rows.map key).Nodup → ∀ r, rows.find? (fun x => decide (key x = k)) = some r →
      rows.filter (fun x => decide (key x = k)) = [r] := by
  intro rows
  induction rows with
  | nil => intro _ r h; simp at h
  | cons a l ih =>
    intro hnd r h
    rw [List.map_cons, List.nodup_cons] at hnd
    by_cases ha : key a = k
    · have hr : a = r := by simpa [List.find?_cons, ha] using h
      subst hr
      rw [List.filter_cons_of_pos (by simpa using ha)]
      congr 1
      rw [List.filter_eq_nil_iff]
      intro x hx hk
      simp only [decide_eq_true_eq] at hk
      exact hnd.1 (by rw [ha, ← hk]; exact List.mem_map_of_mem key hx)
    · rw [List.find?_cons_of_neg _ (by simpa using ha)] at h
      rw [List.filter_cons_of_neg (by simpa using ha)]
      exact ih hnd.2 r h

theorem filter_key_eq_nil {α : Type} (key : α → String) (k : String) (rows : List α)
    (h : k ∉ rows.map key) : rows.filter (fun x => decide (key x = k)) = [] := by
  rw [List.filter_eq_nil_iff]
  intro x hx hk
  simp only [decide_eq_true_eq] at hk
  exact h (by rw [← hk]; exact List.mem_map_of_mem key hx)

theorem filter_key_map_other {α : Type} (key : α → String) (k k2 : String) (update : α → α)
    (hkey : ∀ r, key (update r) = key r) (hne : k2 ≠ k) (rows : List α) :
    (rows.map (fun r => if key r = k2 then update r else r)).filter
        (fun x => decide (key x = k)) =
      rows.filter (fun x => decide (key x = k)) := by
  induction rows with
  | nil => rfl
  | cons a l ih =>
    rw [List.map_cons]
    by_cases ha : key a = k
    · have h2 : key a ≠ k2 := fun h => hne (h.symm.trans ha)
      rw [if_neg h2, List.filter_cons_of_pos (by simpa using ha),
        List.filter_cons_of_pos (by simpa using ha), ih]
    · have h3 : key (if key a = k2 then update a else a) ≠ k := by
        split
        · rw [hkey]; exact ha
        · exact ha
      rw [List.filter_cons_of_neg (by simpa using h3),
        List.filter_cons_of_neg (by simpa using ha), ih]

theorem upsertRows_key_rows {α : Type} (key : α → String) (rows : List α) (k : String)
    (update : α → α) (fresh : α) (hkey : ∀ r, key (update r) = key r) (hfresh : key fresh = k) :
    (∃ r ∈ upsertRows key rows k update fresh, key r = k) ∧
    ∀ r ∈ upsertRows key rows k update fresh, key r = k →
      (∃ r0, r = update r0) ∨ r = fresh := by
  by_cases h : k ∈ rows.map key
  · rw [upsertRows_of_mem _ _ _ _ _ h]
    constructor
    · obtain ⟨r0, hr0, hk0⟩ := List.mem_map.1 h
      refine ⟨update r0, ?_, ?_⟩
      · exact List.mem_map.2 ⟨r0, hr0, by rw [if_pos hk0]⟩
      · rw [hkey]; exact hk0
    · intro r hr hk
      obtain ⟨r0, _, hr0⟩ := List.mem_map.1 hr
      by_cases h0 : key r0 = k
      · rw [if_pos h0] at hr0
        exact Or.inl ⟨r0, hr0.symm⟩
      · rw [if_neg h0] at hr0
        rw [← hr0] at hk
        exact absurd hk h0
  · rw [upsertRows_of_not_mem _ _ _ _ _ h]
    constructor
    · exact ⟨fresh, by simp, hfresh⟩
    · intro r hr hk
      rcases List.mem_append.1 hr with hr | hr
      · exact absurd (by rw [← hk]; exact List.mem_map_of_mem key hr) h
      · exact Or.inr (by simpa using hr)


theorem mem_upsertRows {α : Type} (key : α → String) (rows : List α) (k : String)
    (update : α → α) (fresh : α) (r : α) (hr : r ∈ upsertRows key rows k update fresh) :
    (r ∈ rows ∧ key r ≠ k) ∨ (∃ r0 ∈ rows, key r0 = k ∧ r = update r0) ∨ r = fresh := by
  by_cases h : k ∈ rows.map key
  · rw [upsertRows_of_mem _ _ _ _ _ h] at hr
    obtain ⟨r0, hr0, e⟩ := List.mem_map.1 hr
    by_cases h0 : key r0 = k
    · rw [if_pos h0] at e
      exact Or.inr (Or.inl ⟨r0, hr0, h0, e.symm⟩)
    · rw [if_neg h0] at e
      subst e
      exact Or.inl ⟨hr0, h0⟩
  · rw [upsertRows_of_not_mem _ _ _ _ _ h] at hr
    rcases List.mem_append.1 hr with hr | hr
    · exact Or.inl ⟨hr, fun e => h (by rw [← e]; exact List.mem_map_of_mem key hr)⟩
    · exact Or.inr (Or.inr (by simpa using hr))

/-- The rows an accepted order iteration leaves for its key carry exactly the values of the
remote order, and rows of other keys are rows of the table before. -/
theorem mem_reconcileOrder (db : Db) (t : Tenant) (o : RemoteOrder) (r : Order)
    (ha : orderAccepted o = true) (hr : r ∈ (reconcileOrder db t o).db.orders) :
    (r ∈ db.orders ∧ r.shopifyId ≠ idKey o.id) ∨
    (r.shopifyId = idKey o.id ∧ r.total = parseFloatText o.total_price ∧
      o.created_at = some r.createdAt ∧ r.customerId = (resolveCustomer db t o).2) := by
  obtain ⟨ts, h1, _, h3⟩ := reconcileOrder_orders_accepted db t o ha
  rw [h3] at hr
  rcases mem_upsertRows _ _ _ _ _ r hr with h | ⟨r0, _, h0, rfl⟩ | rfl
  · exact Or.inl h
  · exact Or.inr ⟨h0, rfl, h1, rfl⟩
  · exact Or.inr ⟨rfl, rfl, h1, rfl⟩

theorem exists_reconcileOrder (db : Db) (t : Tenant) (o : RemoteOrder)
    (ha : orderAccepted o = true) :
    ∃ r ∈ (reconcileOrder db t o).db.orders, r.shopifyId = idKey o.id := by
  obtain ⟨ts, _, _, h3⟩ := reconcileOrder_orders_accepted db t o ha
  rw [h3]
  refine (upsertRows_key_rows Order.shopifyId db.orders (idKey o.id) _ _ ?_ ?_).1
  · intro r
    rfl
  · rfl

theorem reconcileOrder_isDone (db : Db) (t : Tenant) (o : RemoteOrder) :
    (reconcileOrder db t o).isDone = orderAccepted o := by
  cases ha : orderAccepted o
  · rw [reconcileOrder_rejected db t o ha]; rfl
  · obtain ⟨db1, _, h2⟩ := reconcileOrder_accepted db t o ha
    rw [h2]; rfl

/-! ## Guest rows are never rewritten -/

theorem mem_keys_of_customersWithKey {db : Db} {k : String} {g : Customer}
    (h : customersWithKey db k = [g]) : k ∈ db.customers.map Customer.shopifyId := by
  have hg : g ∈ customersWithKey db k := by rw [h]; exact List.mem_singleton_self g
  unfold customersWithKey at hg
  rw [List.mem_filter] at hg
  simp only [decide_eq_true_eq] at hg
  rw [← hg.2]
  exact List.mem_map_of_mem _ hg.1

theorem runStep_customers_product (t : Tenant) (db : Db) (p : RemoteProduct) :
    (runStep t db (SyncStep.product p)).customers = db.customers := by
  simp only [runStep]
  cases h : productAccepted p
  · rw [upsertProduct_rejected db t p h]; rfl
  · rw [upsertProduct_accepted db t p h]; rfl

theorem runStep_customersWithKey_guest (t : Tenant) (db : Db) (i : SyncStep) (m : Nat)
    (h : guestKey m ∈ db.customers.map Customer.shopifyId) :
    customersWithKey (runStep t db i) (guestKey m) = customersWithKey db (guestKey m) := by
  cases i with
  | customer c =>
    simp only [runStep, customersWithKey, upsertCustomer]
    by_cases hc : idKey c.id ∈ db.customers.map Customer.shopifyId
    · rw [upsertRows_of_mem _ _ _ _ _ hc]
      refine filter_key_map_other Customer.shopifyId _ _ _ ?_
        (idKey_ne_guestKey c.id m) _
      intro r
      rfl
    · rw [upsertRows_of_not_mem _ _ _ _ _ hc, List.filter_append]
      have : idKey c.id ≠ guestKey m := idKey_ne_guestKey c.id m
      simp [this]
  | product p =>
    simp only [customersWithKey, runStep_customers_product]
  | order o =>
    simp only [runStep, customersWithKey, reconcileOrder_customers]
    cases hg : isGuestOrder o
    · obtain ⟨ref, _, _, h2⟩ := resolveCustomer_ref db t o hg
      rw [h2]
    · rw [resolveCustomer_guest db t o hg]
      by_cases hk : guestKey o.id ∈ db.customers.map Customer.shopifyId
      · rw [upsertGuest_customers_of_mem db t o hk]
      · rw [upsertGuest_customers_of_not_mem db t o hk, List.filter_append]
        have : guestKey o.id ≠ guestKey m := fun e => hk (e ▸ h)
        simp [this]

theorem fold_customersWithKey_guest (t : Tenant) (l : List SyncStep) (m : Nat) :
    ∀ db : Db, guestKey m ∈ db.customers.map Customer.shopifyId →
      customersWithKey (l.foldl (runStep t) db) (guestKey m) =
        customersWithKey db (guestKey m) := by
  induction l with
  | nil => intro db _; rfl
  | cons i l ih =>
    intro db h
    rw [List.foldl_cons, ih, runStep_customersWithKey_guest t db i m h]
    have := (customer_upsertLike t).mono_step db i (guestKey m) (by rw [customerSig_keys]; exact h)
    rw [customerSig_keys] at this
    exact this

theorem runStep_guestsNamed (t : Tenant) (db : Db) (i : SyncStep) (h : db.GuestsNamed) :
    (runStep t db i).GuestsNamed := by
  intro c hc n hn
  cases i with
  | customer rc =>
    simp only [runStep, upsertCustomer] at hc
    by_cases hk : idKey rc.id ∈ db.customers.map Customer.shopifyId
    · rw [upsertRows_of_mem _ _ _ _ _ hk] at hc
      obtain ⟨r0, hr0, hr⟩ := List.mem_map.1 hc
      by_cases h0 : r0.shopifyId = idKey rc.id
      · rw [if_pos h0] at hr
        have : c.shopifyId = idKey rc.id := by rw [← hr]; exact h0
        exact absurd (this.symm.trans hn) (idKey_ne_guestKey _ _)
      · rw [if_neg h0] at hr
        subst hr
        exact h _ hr0 n hn
    · rw [upsertRows_of_not_mem _ _ _ _ _ hk] at hc
      rcases List.mem_append.1 hc with hc | hc
      · exact h _ hc n hn
      · simp only [List.mem_singleton] at hc
        subst hc
        exact absurd hn (idKey_ne_guestKey _ _)
  | product p =>
    rw [runStep_customers_product] at hc
    exact h c hc n hn
  | order o =>
    simp only [runStep, reconcileOrder_customers] at hc
    cases hg : isGuestOrder o
    · obtain ⟨ref, _, _, h2⟩ := resolveCustomer_ref db t o hg
      rw [h2] at hc
      exact h c hc n hn
    · rw [resolveCustomer_guest db t o hg] at hc
      by_cases hk : guestKey o.id ∈ db.customers.map Customer.shopifyId
      · rw [upsertGuest_customers_of_mem db t o hk] at hc
        exact h c hc n hn
      · rw [upsertGuest_customers_of_not_mem db t o hk] at hc
        rcases List.mem_append.1 hc with hc | hc
        · exact h _ hc n hn
        · simp only [List.mem_singleton] at hc
          subst hc
          rfl

/-- The guest invariant holds in every database a sequence of loop iterations produces. -/
theorem fold_guestsNamed (t : Tenant) (l : List SyncStep) :
    ∀ db : Db, db.GuestsNamed → (l.foldl (runStep t) db).GuestsNamed := by
  induction l with
  | nil => intro db h; exact h
  | cons i l ih =>
    intro db h
    rw [List.foldl_cons]
    exact ih _ (runStep_guestsNamed t db i h)

/-- What the guest branch of the order loop does: afterwards exactly one row carries the guest
key, that row is returned, and rows carrying the key before are kept as they are. -/
theorem upsertGuest_spec (db : Db) (t : Tenant) (o : RemoteOrder)
    (hU : (db.customers.map Customer.shopifyId).Nodup) :
    ∃ g : Customer, customersWithKey (upsertGuest db t o).1 (guestKey o.id) = [g] ∧
      (upsertGuest db t o).2 = g.id ∧ g.shopifyId = guestKey o.id ∧
      (g ∈ db.customers ∨ g.name = some "Guest") := by
  unfold upsertGuest
  cases hf : findCustomer db (guestKey o.id) with
  | some g =>
    refine ⟨g, ?_, rfl, (findCustomer_some hf).2, Or.inl (findCustomer_some hf).1⟩
    exact filter_key_of_nodup Customer.shopifyId _ _ hU g hf
  | none =>
    refine ⟨{ id := db.nextCustomerId, shopifyId := guestKey o.id, name := some "Guest",
              email := some "guest@example.com", storeId := t.id }, ?_, rfl, rfl, Or.inr rfl⟩
    simp only [customersWithKey]
    rw [List.filter_append, filter_key_eq_nil Customer.shopifyId _ _
      ((findCustomer_eq_none_iff db _).1 hf)]
    simp

theorem reconcileOrder_guest_spec (db : Db) (t : Tenant) (o : RemoteOrder)
    (hg : isGuestOrder o = true) (hU : (db.customers.map Customer.shopifyId).Nodup) :
    ∃ g : Customer, customersWithKey (reconcileOrder db t o).db (guestKey o.id) = [g] ∧
      (orderAccepted o = true → (reconcileOrder db t o).db.OrderLinkedTo o.id g) ∧
      g.shopifyId = guestKey o.id ∧ (g ∈ db.customers ∨ g.name = some "Guest") := by
  obtain ⟨g, h1, h2, h3, h4⟩ := upsertGuest_spec db t o hU
  refine ⟨g, ?_, ?_, h3, h4⟩
  · simp only [customersWithKey, reconcileOrder_customers, resolveCustomer_guest db t o hg]
    exact h1
  · intro ha
    refine ⟨exists_reconcileOrder db t o ha, ?_⟩
    intro r hr hk
    rcases mem_reconcileOrder db t o r ha hr with ⟨_, hne⟩ | ⟨_, _, _, hcid⟩
    · exact absurd hk hne
    · rw [hcid, resolveCustomer_guest db t o hg, h2]

/-- C2, as the code has it. In a store with unique customer keys whose rows keyed
`guest-<n>` are named `Guest`, reconciling an order without customer reference leaves exactly
one customer row keyed `guest-<order id>`, named `Guest`.  When the store takes the order
write (valid timestamp, finite total) the iteration ends and the order is stored and
references that row; when it rejects the write the iteration throws and the order table is
unchanged.  After any later loop iterations, reconciling the order again leaves that same
row as the only one with the key, and links the order to it when the write is taken. -/
theorem guest_customer_stable (db : Db) (tenant : Tenant) (o : RemoteOrder)
    (hno : isGuestOrder o = true) (hU : (db.customers.map Customer.shopifyId).Nodup)
    (hG : db.GuestsNamed) :
    ∃ g : Customer,
      g.shopifyId = guestKey o.id ∧ g.name = some "Guest" ∧
      customersWithKey (reconcileOrder db tenant o).db (guestKey o.id) = [g] ∧
      (orderAccepted o = true →
        (reconcileOrder db tenant o).isDone = true ∧
        (reconcileOrder db tenant o).db.OrderLinkedTo o.id g) ∧
      (orderAccepted o = false →
        (reconcileOrder db tenant o).isDone = false ∧
        (reconcileOrder db tenant o).db.orders = db.orders) ∧
      ∀ (t2 : Tenant) (later : List SyncStep),
        customersWithKey
            (reconcileOrder (later.foldl (runStep t2) (reconcileOrder db tenant o).db) t2 o).db
            (guestKey o.id) = [g] ∧
        (orderAccepted o = true →
          (reconcileOrder (later.foldl (runStep t2) (reconcileOrder db tenant o).db) t2
            o).db.OrderLinkedTo o.id g) := by
  obtain ⟨g, h1, h2, h3, h4⟩ := reconcileOrder_guest_spec db tenant o hno hU
  have hname : g.name = some "Guest" := by
    rcases h4 with h4 | h4
    · exact hG g h4 o.id h3
    · exact h4
  refine ⟨g, h3, hname, h1, ?_, ?_, ?_⟩
  · intro ha
    exact ⟨by rw [reconcileOrder_isDone, ha], h2 ha⟩
  · intro ha
    exact ⟨by rw [reconcileOrder_isDone, ha], reconcileOrder_orders_rejected db tenant o ha⟩
  intro t2 later
  have hmem := mem_keys_of_customersWithKey h1
  have hU1 : ((reconcileOrder db tenant o).db.customers.map Customer.shopifyId).Nodup := by
    have := (customer_upsertLike tenant).nodup_step db (SyncStep.order o)
      (by rw [customerSig_keys]; exact hU)
    rw [customerSig_keys] at this
    exact this
  have hU2 : (((later.foldl (runStep t2) (reconcileOrder db tenant o).db)).customers.map
      Customer.shopifyId).Nodup := by
    have := (customer_upsertLike t2).nodup later (reconcileOrder db tenant o).db
      (by rw [customerSig_keys]; exact hU1)
    rw [customerSig_keys] at this
    exact this
  have hk2 := fold_customersWithKey_guest t2 later o.id (reconcileOrder db tenant o).db hmem
  rw [h1] at hk2
  have hmem2 := mem_keys_of_customersWithKey hk2
  obtain ⟨g2, k1, k2, _, _⟩ :=
    reconcileOrder_guest_spec (later.foldl (runStep t2) (reconcileOrder db tenant o).db) t2 o
      hno hU2
  have hk3 := runStep_customersWithKey_guest t2
    (later.foldl (runStep t2) (reconcileOrder db tenant o).db) (SyncStep.order o) o.id hmem2
  simp only [runStep] at hk3
  rw [hk2, k1] at hk3
  have hgg : g2 = g := by simpa using hk3
  subst hgg
  exact ⟨k1, k2⟩

/-- C2 fails as stated: a guest order without readable timestamp gets its guest customer,
but the order write is rejected, so no order is stored and none references the guest; the
sync answers with a failure. -/
theorem guest_order_rejected_counterexample :
    isGuestOrder undatedGuestOrder = true ∧
    reconcileOrder emptyDb tenantOne undatedGuestOrder =
      LoopResult.threw
        { emptyDb with
          customers := [{ id := 1, shopifyId := "guest-203", name := some "Guest",
                          email := some "guest@example.com", storeId := 1 }]
          nextCustomerId := 2 } ∧
    (reconcileOrder emptyDb tenantOne undatedGuestOrder).db.orders = [] ∧
    (syncTenant doubleSum emptyDb tenantOne (some []) (some []) (some [undatedGuestOrder])).2 =
      SyncResponse.syncFailed := by
  decide

/-! ## The order loop -/

theorem upsertGuest_returns (db : Db) (t : Tenant) (o : RemoteOrder) :
    ∃ g ∈ (upsertGuest db t o).1.customers,
      g.shopifyId = guestKey o.id ∧ (upsertGuest db t o).2 = g.id := by
  unfold upsertGuest
  cases hf : findCustomer db (guestKey o.id) with
  | some g => exact ⟨g, (findCustomer_some hf).1, (findCustomer_some hf).2, rfl⟩
  | none =>
    exact ⟨{ id := db.nextCustomerId, shopifyId := guestKey o.id, name := some "Guest",
             email := some "guest@example.com", storeId := t.id }, by simp, rfl, rfl⟩

theorem resolveCustomer_customers_subset (db : Db) (t : Tenant) (o : RemoteOrder) :
    ∀ c ∈ db.customers, c ∈ (resolveCustomer db t o).1.customers := by
  intro c hc
  cases hg : isGuestOrder o
  · obtain ⟨ref, _, _, h2⟩ := resolveCustomer_ref db t o hg
    rw [h2]; exact hc
  · rw [resolveCustomer_guest db t o hg]
    by_cases hk : guestKey o.id ∈ db.customers.map Customer.shopifyId
    · rw [upsertGuest_customers_of_mem db t o hk]; exact hc
    · rw [upsertGuest_customers_of_not_mem db t o hk]
      exact List.mem_append_left _ hc

theorem customerKeyFor_guest (o : RemoteOrder) (hg : isGuestOrder o = true) :
    customerKeyFor o = guestKey o.id := by
  unfold isGuestOrder at hg
  unfold customerKeyFor
  split
  · rename_i ref hc
    rw [hc] at hg
    simp only [decide_eq_true_eq] at hg
    simp [hg]
  · rfl

/-- The lookup of the order loop: the id of an existing row keyed as the order says, or null
when the referenced customer has no row. -/
theorem resolveCustomer_result (db : Db) (t : Tenant) (o : RemoteOrder) :
    (refKnown db o = true ∧ ∃ c ∈ (resolveCustomer db t o).1.customers,
        c.shopifyId = customerKeyFor o ∧ (resolveCustomer db t o).2 = some c.id) ∨
    (refKnown db o = false ∧ (resolveCustomer db t o).2 = none ∧
      (resolveCustomer db t o).1 = db) := by
  cases hg : isGuestOrder o
  · obtain ⟨ref, h1, h2, h3⟩ := resolveCustomer_ref db t o hg
    have hkey : customerKeyFor o = idKey ref.id := by simp [customerKeyFor, h1, h2]
    rw [h3]
    cases hf : findCustomer db (idKey ref.id) with
    | none =>
      right
      refine ⟨?_, rfl, rfl⟩
      simp only [refKnown, hg, hkey, Bool.false_or, decide_eq_false_iff_not]
      exact (findCustomer_eq_none_iff db _).1 hf
    | some c =>
      left
      refine ⟨?_, c, (findCustomer_some hf).1, ?_, rfl⟩
      · simp only [refKnown, hg, hkey, Bool.false_or, decide_eq_true_eq]
        rw [← (findCustomer_some hf).2]
        exact List.mem_map_of_mem _ (findCustomer_some hf).1
      · rw [(findCustomer_some hf).2, hkey]
  · left
    rw [resolveCustomer_guest db t o hg]
    obtain ⟨g, g1, g2, g3⟩ := upsertGuest_returns db t o
    refine ⟨by simp [refKnown, hg], g, g1, ?_, by rw [g3]⟩
    rw [g2, customerKeyFor_guest o hg]

theorem refKnown_congr (db0 db : Db) (o : RemoteOrder) (hJ : SameIdKeys db0 db) :
    refKnown db o = refKnown db0 o := by
  cases hg : isGuestOrder o
  · obtain ⟨ref, h1, h2, _⟩ := resolveCustomer_ref db ⟨0, "", "", "", 0⟩ o hg
    have hkey : customerKeyFor o = idKey ref.id := by simp [customerKeyFor, h1, h2]
    simp only [refKnown, hg, hkey, Bool.false_or]
    exact decide_eq_decide.2 (hJ ref.id)
  · simp [refKnown, hg]

theorem resolveCustomer_sameIdKeys (db0 db : Db) (t : Tenant) (o : RemoteOrder)
    (hJ : SameIdKeys db0 db) : SameIdKeys db0 (resolveCustomer db t o).1 := by
  intro n
  rw [← hJ n]
  cases hg : isGuestOrder o
  · obtain ⟨ref, _, _, h2⟩ := resolveCustomer_ref db t o hg
    rw [h2]
  · rw [resolveCustomer_guest db t o hg]
    by_cases hk : guestKey o.id ∈ db.customers.map Customer.shopifyId
    · rw [upsertGuest_customers_of_mem db t o hk]
    · rw [upsertGuest_customers_of_not_mem db t o hk, List.map_append, List.mem_append]
      constructor
      · rintro (h | h)
        · exact h
        · simp only [List.map_cons, List.map_nil, List.mem_singleton] at h
          exact absurd h (idKey_ne_guestKey n o.id)
      · exact Or.inl

theorem reconcileOrder_sameIdKeys (db0 db : Db) (t : Tenant) (o : RemoteOrder)
    (hJ : SameIdKeys db0 db) : SameIdKeys db0 (reconcileOrder db t o).db := by
  intro n
  rw [reconcileOrder_customers]
  exact resolveCustomer_sameIdKeys db0 db t o hJ n

theorem reconcileOrder_resolved (db0 db : Db) (t : Tenant) (o : RemoteOrder)
    (done : List RemoteOrder) (hJ : SameIdKeys db0 db) (hinv : OrdersResolved db0 db done)
    (ha : orderAccepted o = true) :
    OrdersResolved db0 (reconcileOrder db t o).db (done ++ [o]) := by
  intro r hr hk
  rcases mem_reconcileOrder db t o r ha hr with ⟨hold, hne⟩ | ⟨hkey, _, _, hcid⟩
  · have hk2 : r.shopifyId ∈ done.map (fun o => idKey o.id) := by
      rw [List.map_append, List.mem_append] at hk
      rcases hk with hk | hk
      · exact hk
      · simp only [List.map_cons, List.map_nil, List.mem_singleton] at hk
        exact absurd hk hne
    obtain ⟨o2, ho2, e2, hcase⟩ := hinv r hold hk2
    refine ⟨o2, List.mem_append_left _ ho2, e2, ?_⟩
    rcases hcase with ⟨hk1, c2, hc2m, hc2k, hc2i⟩ | hcase
    · left
      refine ⟨hk1, c2, ?_, hc2k, hc2i⟩
      rw [reconcileOrder_customers]
      exact resolveCustomer_customers_subset db t o c2 hc2m
    · exact Or.inr hcase
  · refine ⟨o, by simp, hkey.symm, ?_⟩
    rcases resolveCustomer_result db t o with ⟨hk1, c, hc1, hc2, hc3⟩ | ⟨hk1, hc3, _⟩
    · left
      rw [refKnown_congr db0 db o hJ] at hk1
      refine ⟨hk1, c, ?_, hc2, by rw [hcid, hc3]⟩
      rw [reconcileOrder_customers]
      exact hc1
    · right
      rw [refKnown_congr db0 db o hJ] at hk1
      exact ⟨hk1, by rw [hcid, hc3]⟩

theorem reconcileOrders_resolved (db0 : Db) (t : Tenant) (os : List RemoteOrder) :
    ∀ (db : Db) (done : List RemoteOrder), SameIdKeys db0 db → OrdersResolved db0 db done →
      OrdersResolved db0 (reconcileOrders db t os).db (done ++ upsertedOrders os) := by
  induction os with
  | nil =>
    intro db done _ hinv
    simpa [reconcileOrders, upsertedOrders, LoopResult.db] using hinv
  | cons o os ih =>
    intro db done hJ hinv
    cases ha : orderAccepted o
    · have h1 : reconcileOrders db t (o :: os) =
          LoopResult.threw (resolveCustomer db t o).1 := by
        simp only [reconcileOrders, reconcileOrder_rejected db t o ha]
      have h2 : upsertedOrders (o :: os) = [] := by
        simp [upsertedOrders, List.takeWhile, ha]
      rw [h1, h2, List.append_nil]
      intro r hr hk
      simp only [LoopResult.db, resolveCustomer_orders] at hr
      obtain ⟨o2, ho2, e2, hcase⟩ := hinv r hr hk
      refine ⟨o2, ho2, e2, ?_⟩
      rcases hcase with ⟨hk1, c2, hc2m, hc2k, hc2i⟩ | hcase
      · exact Or.inl ⟨hk1, c2, resolveCustomer_customers_subset db t o c2 hc2m, hc2k, hc2i⟩
      · exact Or.inr hcase
    · obtain ⟨db1, _, hd⟩ := reconcileOrder_accepted db t o ha
      have h1 : reconcileOrders db t (o :: os) =
          reconcileOrders (reconcileOrder db t o).db t os := by
        simp only [reconcileOrders, hd, LoopResult.db]
      have h2 : upsertedOrders (o :: os) = o :: upsertedOrders os := by
        simp [upsertedOrders, List.takeWhile, ha]
      rw [h1, h2]
      have := ih (reconcileOrder db t o).db (done ++ [o])
        (reconcileOrder_sameIdKeys db0 db t o hJ) (reconcileOrder_resolved db0 db t o done hJ hinv ha)
      simpa [List.append_assoc] using this

/-- C3, as the code has it. After the order loop, every order it upserted (the remote orders
before the first one whose write the store rejects) carries the customer reference a remote
order with its id determines: when that order has no customer reference, or references a
customer that has a row before the loop, the reference is non-null and names an existing
customer row, keyed by the referenced id or by the guest key; when it references a customer
without row, the reference is null. -/
theorem orders_reference_resolved (db : Db) (tenant : Tenant) (os : List RemoteOrder) :
    ∀ r ∈ (reconcileOrders db tenant os).db.orders,
      r.shopifyId ∈ (upsertedOrders os).map (fun o => idKey o.id) →
      ∃ o ∈ upsertedOrders os, idKey o.id = r.shopifyId ∧
        ((refKnown db o = true ∧
            ∃ c ∈ (reconcileOrders db tenant os).db.customers,
              c.shopifyId = customerKeyFor o ∧ r.customerId = some c.id) ∨
          (refKnown db o = false ∧ r.customerId = none)) := by
  have h0 : OrdersResolved db db [] := by
    intro r _ hk
    simp at hk
  have := reconcileOrders_resolved db tenant os db [] (fun _ => Iff.rfl) h0
  simpa [OrdersResolved] using this

/-- C3 fails as stated: an order referencing the unknown remote customer 99 is upserted with
a null customer reference. -/
theorem order_reference_null_counterexample :
    orderAccepted danglingOrder = true ∧
    (reconcileOrders emptyDb tenantOne [danglingOrder]).isDone = true ∧
    (reconcileOrders emptyDb tenantOne [danglingOrder]).db.orders.map
      (fun r => (r.shopifyId, r.customerId)) = [("202", none)] := by
  decide!

/-! ## Failures of a sync -/

/-- A sync whose three fetches succeed and all of whose product and order writes the store
takes answers with the summary of the database it leaves. -/
theorem syncTenant_ok (sumOf : List JsNum → JsNum) (db : Db) (t : Tenant)
    (cs : List RemoteCustomer) (ps : List RemoteProduct) (os : List RemoteOrder)
    (hp : ∀ p ∈ ps, productAccepted p = true) (ho : ∀ o ∈ os, orderAccepted o = true) :
    (syncTenant sumOf db t (some cs) (some ps) (some os)).2 =
      SyncResponse.ok
        (summary sumOf (syncTenant sumOf db t (some cs) (some ps) (some os)).1 t.id) := by
  unfold syncTenant
  simp only
  have h1 := (reconcileProducts_spec t ps (reconcileCustomers db t cs)).2.2 hp
  cases hr : reconcileProducts (reconcileCustomers db t cs) t ps with
  | threw db2 => rw [hr] at h1; cases h1
  | done db2 =>
    simp only
    have h2 := (reconcileOrders_spec t os db2).2.2 ho
    cases hr2 : reconcileOrders db2 t os with
    | threw db3 => rw [hr2] at h2; cases h2
    | done db3 => rfl

/-- A sync in which the store rejects a product or order write answers with a failure. -/
theorem syncTenant_failed (sumOf : List JsNum → JsNum) (db : Db) (t : Tenant)
    (cs : List RemoteCustomer) (ps : List RemoteProduct) (os : List RemoteOrder)
    (h : (∃ p ∈ ps, productAccepted p = false) ∨ (∃ o ∈ os, orderAccepted o = false)) :
    (syncTenant sumOf db t (some cs) (some ps) (some os)).2 = SyncResponse.syncFailed := by
  unfold syncTenant
  simp only
  have h1 := (reconcileProducts_spec t ps (reconcileCustomers db t cs)).2
  cases hr : reconcileProducts (reconcileCustomers db t cs) t ps with
  | threw db2 => rfl
  | done db2 =>
    simp only
    rw [hr] at h1
    have hp := h1.1 rfl
    have h2 := (reconcileOrders_spec t os db2).2
    cases hr2 : reconcileOrders db2 t os with
    | threw db3 => rfl
    | done db3 =>
      rw [hr2] at h2
      have ho := h2.1 rfl
      rcases h with ⟨p, hpm, hpa⟩ | ⟨o, hom, hoa⟩
      · rw [hp p hpm] at hpa; cases hpa
      · rw [ho o hom] at hoa; cases hoa

/-- C4, as the code has it. For an order whose customer reference names a remote identity
without local customer row: no guest customer is created (the customer table is unchanged).
When the store takes the order write (valid timestamp, finite total), the iteration ends with
the order stored under its key, with its total, its timestamp and a null customer reference,
and a sync containing the order whose fetches succeed and whose other writes are taken too
answers with the summary.  When the store rejects the write, the iteration throws, the order
table is unchanged and a sync containing the order whose fetches succeed answers with a
failure. -/
theorem unresolved_reference_order (sumOf : List JsNum → JsNum) (db : Db) (tenant : Tenant)
    (o : RemoteOrder) (ref : RemoteCustomerRef) (hc : o.customer = some ref)
    (hid : ref.id ≠ 0) (hmiss : idKey ref.id ∉ db.customers.map Customer.shopifyId) :
    (reconcileOrder db tenant o).db.customers = db.customers ∧
    (orderAccepted o = true →
      (reconcileOrder db tenant o).isDone = true ∧
      (∃ r ∈ (reconcileOrder db tenant o).db.orders, r.shopifyId = idKey o.id) ∧
      (∀ r ∈ (reconcileOrder db tenant o).db.orders, r.shopifyId = idKey o.id →
        r.total = parseFloatText o.total_price ∧ o.created_at = some r.createdAt ∧
        r.customerId = none) ∧
      ∀ (db0 : Db) (cs : List RemoteCustomer) (ps : List RemoteProduct)
        (os : List RemoteOrder), o ∈ os →
        (∀ p ∈ ps, productAccepted p = true) → (∀ o2 ∈ os, orderAccepted o2 = true) →
        (syncTenant sumOf db0 tenant (some cs) (some ps) (some os)).2 =
          SyncResponse.ok
            (summary sumOf (syncTenant sumOf db0 tenant (some cs) (some ps) (some os)).1
              tenant.id)) ∧
    (orderAccepted o = false →
      reconcileOrder db tenant o = LoopResult.threw db ∧
      ∀ (db0 : Db) (cs : List RemoteCustomer) (ps : List RemoteProduct)
        (os : List RemoteOrder), o ∈ os →
        (syncTenant sumOf db0 tenant (some cs) (some ps) (some os)).2 =
          SyncResponse.syncFailed) := by
  have hg : isGuestOrder o = false := by simp [isGuestOrder, hc, hid]
  obtain ⟨ref2, e1, _, e3⟩ := resolveCustomer_ref db tenant o hg
  have href : ref2 = ref := by rw [hc] at e1; exact (Option.some.inj e1).symm
  subst href
  rw [(findCustomer_eq_none_iff db _).2 hmiss] at e3
  refine ⟨?_, ?_, ?_⟩
  · rw [reconcileOrder_customers, e3]
  · intro ha
    refine ⟨by rw [reconcileOrder_isDone, ha], exists_reconcileOrder db tenant o ha, ?_, ?_⟩
    · intro r hr hk
      rcases mem_reconcileOrder db tenant o r ha hr with ⟨_, hne⟩ | ⟨_, h1, h2, h3⟩
      · exact absurd hk hne
      · refine ⟨h1, h2, ?_⟩
        rw [h3, e3]
        rfl
    · intro db0 cs ps os _ hp ho
      exact syncTenant_ok sumOf db0 tenant cs ps os hp ho
  · intro ha
    refine ⟨?_, ?_⟩
    · rw [reconcileOrder_rejected db tenant o ha, e3]
    · intro db0 cs ps os hmem
      exact syncTenant_failed sumOf db0 tenant cs ps os (Or.inr ⟨o, hmem, ha⟩)

/-- C4 fails as stated: an order referencing the unknown remote customer 99, without readable
timestamp, is not upserted; the iteration throws, the database stays as it was and the sync
answers with a failure. -/
theorem unresolved_reference_rejected_counterexample :
    undatedDanglingOrder.customer = some { id := 99 } ∧
    idKey 99 ∉ spendExampleDb.customers.map Customer.shopifyId ∧
    reconcileOrder spendExampleDb tenantOne undatedDanglingOrder =
      LoopResult.threw spendExampleDb ∧
    idKey 204 ∉ (reconcileOrder spendExampleDb tenantOne
      undatedDanglingOrder).db.orders.map Order.shopifyId ∧
    (syncTenant doubleSum spendExampleDb tenantOne (some []) (some [])
      (some [undatedDanglingOrder])).2 = SyncResponse.syncFailed := by
  decide

/-- C5, as the code has it. When a fetch fails the sync answers with a failure; the loops of
the resources fetched before the failing fetch have run and no later loop has: nothing when
the customers fetch fails, the customer loop when the products fetch fails, the customer and
product loops when the orders fetch fails. -/
theorem fetch_failure_keeps_earlier_loops (sumOf : List JsNum → JsNum) (db : Db)
    (tenant : Tenant)
    (customersRes : Option (List RemoteCustomer)) (productsRes : Option (List RemoteProduct))
    (ordersRes : Option (List RemoteOrder))
    (h : customersRes = none ∨ productsRes = none ∨ ordersRes = none) :
    (syncTenant sumOf db tenant customersRes productsRes ordersRes).2 =
      SyncResponse.syncFailed ∧
    (customersRes = none →
      (syncTenant sumOf db tenant customersRes productsRes ordersRes).1 = db) ∧
    (∀ cs, customersRes = some cs → productsRes = none →
      (syncTenant sumOf db tenant customersRes productsRes ordersRes).1 =
        reconcileCustomers db tenant cs) ∧
    (∀ cs ps, customersRes = some cs → productsRes = some ps → ordersRes = none →
      (syncTenant sumOf db tenant customersRes productsRes ordersRes).1 =
        (reconcileProducts (reconcileCustomers db tenant cs) tenant ps).db) := by
  cases customersRes with
  | none =>
    refine ⟨rfl, ?_, ?_, ?_⟩
    · intro _
      rfl
    · intro cs e
      cases e
    · intro cs ps e
      cases e
  | some cs =>
    cases productsRes with
    | none =>
      refine ⟨rfl, ?_, ?_, ?_⟩
      · intro e
        cases e
      · intro cs2 e _
        cases e
        rfl
      · intro cs2 ps _ e
        cases e
    | some ps =>
      cases ordersRes with
      | none =>
        refine ⟨?_, ?_, ?_, ?_⟩
        · unfold syncTenant
          simp only
          cases reconcileProducts (reconcileCustomers db tenant cs) tenant ps <;> rfl
        · intro e
          cases e
        · intro cs2 _ e
          cases e
        · intro cs2 ps2 e1 e2 _
          cases e1
          cases e2
          unfold syncTenant
          simp only
          cases reconcileProducts (reconcileCustomers db tenant cs) tenant ps <;> rfl
      | some os =>
        rcases h with h | h | h <;> cases h

/-- C5 fails as stated: the customers fetch succeeds and the products fetch fails; the sync
answers with a failure, but the fetched customer has been written to the database. -/
theorem fetch_failure_counterexample :
    (syncTenant doubleSum emptyDb tenantOne
      (some [{ id := 1, first_name := JsText.str "Ann", email := JsText.str "ann@example.com" }])
      none none).2 = SyncResponse.syncFailed ∧
    (syncTenant doubleSum emptyDb tenantOne
      (some [{ id := 1, first_name := JsText.str "Ann", email := JsText.str "ann@example.com" }])
      none none).1.customers =
      [{ id := 1, shopifyId := "1", name := some "Ann", email := some "ann@example.com",
         storeId := 1 }] ∧
    (syncTenant doubleSum emptyDb tenantOne
      (some [{ id := 1, first_name := JsText.str "Ann", email := JsText.str "ann@example.com" }])
      none none).1 ≠ emptyDb := by
  decide

/-! ## Sums of exact numbers -/

theorem foldl_addExact_fin (l : List JsNum) :
    ∀ (a : ℚ), (∀ x ∈ l, x.isFinite = true) →
      l.foldl JsNum.addExact (JsNum.fin a) = JsNum.fin (a + (l.map JsNum.val).sum) := by
  induction l with
  | nil => intro a _; simp
  | cons x l ih =>
    intro a h
    have hx := h x (List.mem_cons_self x l)
    cases x with
    | nan => cases hx
    | inf s => cases hx
    | fin q =>
      rw [List.foldl_cons]
      show List.foldl JsNum.addExact (JsNum.fin (a + q)) l = _
      rw [ih (a + q) (fun y hy => h y (List.mem_cons_of_mem _ hy))]
      simp [JsNum.val, add_assoc]

theorem orZero_fin (q : ℚ) : (JsNum.fin q).orZero = JsNum.fin q := by
  unfold JsNum.orZero JsNum.truthy
  by_cases h : q = 0
  · simp [h]
  · simp [h]

theorem totalRevenue_exact (db : Db) (storeId : Nat)
    (hfin : ∀ o ∈ tenantOrders db storeId, o.total.isFinite = true) :
    totalRevenue exactSum db storeId =
      JsNum.fin (((tenantOrders db storeId).map (fun o => o.total.val)).sum) := by
  unfold totalRevenue aggregateSumTotal
  cases hl : tenantOrders db storeId with
  | nil => simp
  | cons o os =>
    simp only
    rw [hl] at hfin
    unfold exactSum
    rw [foldl_addExact_fin _ 0 (by
      intro x hx
      obtain ⟨r, hr, rfl⟩ := List.mem_map.1 hx
      exact hfin r hr), orZero_fin]
    simp only [List.map_map, zero_add]
    rfl

/-- C6. The `totalRevenue` of the summary (computed alike by `/stats` and by step 4 of
`/sync`) is the sum of the totals of the tenant's orders, the totals being taken as exact
numbers; it is the number 0 when the tenant has no orders. -/
theorem totalRevenue_is_sum (db : Db) (storeId : Nat)
    (hfin : ∀ o ∈ tenantOrders db storeId, o.total.isFinite = true) :
    (statsHandler exactSum db storeId).totalRevenue =
      JsNum.fin (((tenantOrders db storeId).map (fun o => o.total.val)).sum) ∧
    (∀ (db0 : Db) (tenant : Tenant) (cs : List RemoteCustomer) (ps : List RemoteProduct)
        (os : List RemoteOrder), tenant.id = storeId →
        (syncTenant exactSum db0 tenant (some cs) (some ps) (some os)).1 = db →
        (∀ s, (syncTenant exactSum db0 tenant (some cs) (some ps) (some os)).2 =
            SyncResponse.ok s →
          s.totalRevenue =
            JsNum.fin (((tenantOrders db storeId).map (fun o => o.total.val)).sum)) ∧
        ((∀ p ∈ ps, productAccepted p = true) → (∀ o ∈ os, orderAccepted o = true) →
          ∃ s, (syncTenant exactSum db0 tenant (some cs) (some ps) (some os)).2 =
              SyncResponse.ok s ∧
            s.totalRevenue =
              JsNum.fin (((tenantOrders db storeId).map (fun o => o.total.val)).sum))) ∧
    (tenantOrders db storeId = [] →
      (statsHandler exactSum db storeId).totalRevenue = JsNum.fin 0) := by
  have key := totalRevenue_exact db storeId hfin
  refine ⟨key, ?_, ?_⟩
  · intro db0 tenant cs ps os ht hdb
    have hresp : ∀ s, (syncTenant exactSum db0 tenant (some cs) (some ps) (some os)).2 =
        SyncResponse.ok s → s = summary exactSum db storeId := by
      intro s hs
      rw [← hdb, ← ht]
      unfold syncTenant at hs ⊢
      simp only at hs ⊢
      cases hr : reconcileProducts (reconcileCustomers db0 tenant cs) tenant ps with
      | threw db2 => rw [hr] at hs; cases hs
      | done db2 =>
        rw [hr] at hs
        simp only at hs ⊢
        cases hr2 : reconcileOrders db2 tenant os with
        | threw db3 => rw [hr2] at hs; cases hs
        | done db3 =>
          rw [hr2] at hs
          simp only at hs ⊢
          exact (SyncResponse.ok.inj hs).symm
    refine ⟨?_, ?_⟩
    · intro s hs
      rw [hresp s hs]
      exact key
    · intro hp ho
      have hok := syncTenant_ok exactSum db0 tenant cs ps os hp ho
      exact ⟨_, hok, by rw [hresp _ hok]; exact key⟩
  · intro h
    show totalRevenue exactSum db storeId = JsNum.fin 0
    rw [key, h]
    simp

/-! ## Binary64 rounding keeps signs and the grid -/

theorem pow2_eq_zpow (e : Int) : pow2 e = (2 : ℚ) ^ e := by
  unfold pow2
  split
  · rename_i h
    have h1 : (2 : ℚ) ^ e = (2 : ℚ) ^ ((e.toNat : Nat) : Int) := by
      rw [Int.toNat_of_nonneg h]
    rw [h1, zpow_natCast]
    push_cast
    rfl
  · rename_i h
    have h1 : (2 : ℚ) ^ e = (2 : ℚ) ^ (-(((-e).toNat : Nat) : Int)) := by
      rw [Int.toNat_of_nonneg (by omega), neg_neg]
    rw [h1, zpow_neg, zpow_natCast]
    push_cast
    rw [one_div]

theorem pow2_pos (e : Int) : 0 < pow2 e := by
  rw [pow2_eq_zpow]
  positivity

theorem pow2_add (a b : Int) : pow2 (a + b) = pow2 a * pow2 b := by
  simp only [pow2_eq_zpow]
  exact zpow_add₀ (by norm_num) a b

theorem pow2_mono {a b : Int} (h : a ≤ b) : pow2 a ≤ pow2 b := by
  simp only [pow2_eq_zpow]
  exact zpow_le_zpow_right₀ (by norm_num) h

theorem pow2_natCast (n : Nat) : pow2 (n : Int) = ((2 ^ n : Nat) : ℚ) := by
  rw [pow2_eq_zpow, zpow_natCast]
  simp

theorem ulpSearch_spec (a : ℚ) (fuel : Nat) : ∀ lo hi : Int,
    -1074 ≤ lo → lo ≤ hi → (lo = -1074 ∨ pow2 (lo + 52) ≤ a) →
      -1074 ≤ ulpSearch a fuel lo hi ∧
      (ulpSearch a fuel lo hi = -1074 ∨ pow2 (ulpSearch a fuel lo hi + 52) ≤ a) := by
  induction fuel with
  | zero => intro lo hi h1 _ h3; exact ⟨h1, h3⟩
  | succ n ih =>
    intro lo hi h1 h2 h3
    simp only [ulpSearch]
    split
    · rename_i hm
      exact ih _ _ (by omega) (by omega) (Or.inr hm)
    · exact ih _ _ h1 (by omega) h3

theorem ulpExp_spec (a : ℚ) :
    -1074 ≤ ulpExp a ∧ (ulpExp a = -1074 ∨ pow2 (ulpExp a + 52) ≤ a) :=
  ulpSearch_spec a 12 (-1074) 972 (by decide) (by decide) (Or.inl rfl)

theorem roundHalfEven_nonneg (x : ℚ) (h : 0 ≤ x) : 0 ≤ roundHalfEven x := by
  have hf : 0 ≤ Rat.floor x := Rat.le_floor.2 (by simpa using h)
  unfold roundHalfEven
  split
  · exact hf
  · split
    · omega
    · split
      · exact hf
      · omega

theorem roundHalfEven_pos (x : ℚ) (h : 1 ≤ x) : 1 ≤ roundHalfEven x := by
  have hf : 1 ≤ Rat.floor x := Rat.le_floor.2 (by simpa using h)
  unfold roundHalfEven
  split
  · exact hf
  · split
    · omega
    · split
      · exact hf
      · omega

theorem roundHalfEven_zero : roundHalfEven 0 = 0 := by decide!

theorem le_of_onGrid_pos (q : ℚ) (hq : 0 < q) (hg : OnGrid q) : pow2 (-1074) ≤ q := by
  obtain ⟨k, rfl⟩ := hg
  have hp := pow2_pos (-1074)
  have hk : 0 < (k : ℚ) := by
    by_contra hk
    push_neg at hk
    have := mul_nonpos_of_nonpos_of_nonneg hk (le_of_lt hp)
    linarith
  have hk1 : (1 : ℚ) ≤ (k : ℚ) := by exact_mod_cast (Int.cast_pos.1 hk)
  calc pow2 (-1074) = 1 * pow2 (-1074) := by ring
    _ ≤ (k : ℚ) * pow2 (-1074) := mul_le_mul_of_nonneg_right hk1 (le_of_lt hp)

/-- The unit in the last place of a positive grid value does not exceed the value. -/
theorem pow2_ulpExp_le (q : ℚ) (hq : 0 < q) (hg : OnGrid q) : pow2 (ulpExp q) ≤ q := by
  rcases (ulpExp_spec q).2 with h | h
  · rw [h]
    exact le_of_onGrid_pos q hq hg
  · exact le_trans (pow2_mono (by omega)) h

theorem roundDouble_isPos_of_pos (q : ℚ) (hq : 0 < q) (hg : OnGrid q) :
    (roundDouble q).isPos = true := by
  have hn : ¬ q < 0 := not_lt.2 (le_of_lt hq)
  have hp := pow2_pos (ulpExp q)
  have hx : 1 ≤ q / pow2 (ulpExp q) := by
    rw [le_div_iff₀ hp, one_mul]
    exact pow2_ulpExp_le q hq hg
  have hm : (1 : ℚ) ≤ (roundHalfEven (q / pow2 (ulpExp q)) : ℚ) := by
    exact_mod_cast roundHalfEven_pos _ hx
  have hv : 0 < (roundHalfEven (q / pow2 (ulpExp q)) : ℚ) * pow2 (ulpExp q) :=
    mul_pos (lt_of_lt_of_le one_pos hm) hp
  unfold roundDouble
  simp only [hn, if_false, decide_False]
  split
  · rfl
  · simp [JsNum.isPos, hv]

theorem roundDouble_isPos_of_nonpos (q : ℚ) (hq : q ≤ 0) :
    (roundDouble q).isPos = false := by
  rcases eq_or_lt_of_le hq with h0 | hneg
  · subst h0
    unfold roundDouble
    simp only [lt_irrefl, if_false, zero_div, roundHalfEven_zero, Int.cast_zero, zero_mul,
      decide_False]
    rw [if_neg (not_le.2 (pow2_pos 1024))]
    simp [JsNum.isPos]
  · have hp := pow2_pos (ulpExp (-q))
    have hx : 0 ≤ -q / pow2 (ulpExp (-q)) := div_nonneg (by linarith) (le_of_lt hp)
    have hm : (0 : ℚ) ≤ (roundHalfEven (-q / pow2 (ulpExp (-q))) : ℚ) := by
      exact_mod_cast roundHalfEven_nonneg _ hx
    have hv : 0 ≤ (roundHalfEven (-q / pow2 (ulpExp (-q))) : ℚ) * pow2 (ulpExp (-q)) :=
      mul_nonneg hm (le_of_lt hp)
    unfold roundDouble
    simp only [hneg, if_true, decide_True]
    split
    · rfl
    · simp only [JsNum.isPos, decide_eq_false_iff_not, not_lt]
      linarith

theorem onGrid_zero : OnGrid 0 := ⟨0, by simp⟩

theorem onGrid_neg {q : ℚ} (h : OnGrid q) : OnGrid (-q) := by
  obtain ⟨k, rfl⟩ := h
  exact ⟨-k, by push_cast; ring⟩

theorem onGrid_add {a b : ℚ} (ha : OnGrid a) (hb : OnGrid b) : OnGrid (a + b) := by
  obtain ⟨k, rfl⟩ := ha
  obtain ⟨l, rfl⟩ := hb
  exact ⟨k + l, by push_cast; ring⟩

theorem onGrid_of_ulp (m : Int) (e : Int) (he : -1074 ≤ e) : OnGrid ((m : ℚ) * pow2 e) := by
  have h1 : e = ((e + 1074).toNat : Int) + (-1074) := by
    rw [Int.toNat_of_nonneg (by omega)]
    omega
  refine ⟨m * ((2 ^ (e + 1074).toNat : Nat) : Int), ?_⟩
  conv_lhs => rw [h1, pow2_add, pow2_natCast]
  push_cast
  ring

/-- The result of rounding is never `NaN`, and a finite result lies on the binary64 grid. -/
theorem roundDouble_isDouble (q : ℚ) : (roundDouble q).IsDouble := by
  unfold roundDouble
  by_cases hq : q < 0
  · simp only [hq, if_true]
    split
    · trivial
    · exact onGrid_neg (onGrid_of_ulp _ _ (ulpExp_spec _).1)
  · simp only [hq, if_false]
    split
    · trivial
    · exact onGrid_of_ulp _ _ (ulpExp_spec _).1

/-! ## The comparator of `topCustomers` is a consistent ordering -/

theorem sub_isPos_double (a b : JsNum) (ha : a.IsDouble) (hb : b.IsDouble) :
    (b.sub a).isPos = decide (a.toExt < b.toExt) := by
  cases a with
  | nan => cases ha
  | fin x =>
    cases b with
    | nan => cases hb
    | fin y =>
      have hg : OnGrid (y + -x) := onGrid_add hb (onGrid_neg ha)
      show (roundDouble (y + -x)).isPos = _
      by_cases h : x < y
      · rw [roundDouble_isPos_of_pos _ (by linarith) hg]
        simp [JsNum.toExt, h]
      · rw [roundDouble_isPos_of_nonpos _ (by linarith)]
        simp [JsNum.toExt, h]
    | inf t =>
      cases t
      · simp only [JsNum.sub, JsNum.neg, JsNum.add, JsNum.isPos, JsNum.toExt, Bool.not_false]
        symm
        rw [decide_eq_true_eq, WithBot.coe_lt_coe]
        exact WithTop.coe_lt_top x
      · simp [JsNum.sub, JsNum.neg, JsNum.add, JsNum.isPos, JsNum.toExt]
  | inf s =>
    cases b with
    | nan => cases hb
    | fin y =>
      cases s
      · simp [JsNum.sub, JsNum.neg, JsNum.add, JsNum.isPos, JsNum.toExt]
      · simp [JsNum.sub, JsNum.neg, JsNum.add, JsNum.isPos, JsNum.toExt]
    | inf t =>
      cases s <;> cases t <;>
        simp [JsNum.sub, JsNum.neg, JsNum.add, JsNum.isPos, JsNum.toExt]

theorem add_isDouble (a b : JsNum) (ha : a.IsDouble) (hb : b.isFinite = true) :
    (a.add b).IsDouble := by
  cases b with
  | nan => cases hb
  | inf s => cases hb
  | fin t =>
    cases a with
    | nan => cases ha
    | fin x => exact roundDouble_isDouble _
    | inf s => trivial

theorem foldl_add_isDouble (l : List Order) : ∀ acc : JsNum, acc.IsDouble →
    (∀ o ∈ l, o.total.isFinite = true) →
    (l.foldl (fun s o => s.add o.total) acc).IsDouble := by
  induction l with
  | nil => intro acc h _; exact h
  | cons o l ih =>
    intro acc h hl
    rw [List.foldl_cons]
    exact ih _ (add_isDouble acc o.total h (hl o (List.mem_cons_self o l)))
      (fun x hx => hl x (List.mem_cons_of_mem o hx))

theorem spendOf_isDouble (db : Db) (c : Customer)
    (hfin : ∀ o ∈ db.orders, o.total.isFinite = true) : (spendOf db c).IsDouble :=
  foldl_add_isDouble _ _ onGrid_zero (fun o ho => hfin o (List.mem_of_mem_filter ho))

theorem spendOf_eq_doubleSum (db : Db) (c : Customer) :
    spendOf db c = doubleSum ((customerOrders db c).map Order.total) := by
  unfold spendOf doubleSum
  rw [List.foldl_map]

/-! ## The stable sort -/

theorem sortInsert_perm {α : Type} (cmp : α → α → JsNum) (x : α) (l : List α) :
    (sortInsert cmp x l).Perm (x :: l) := by
  induction l with
  | nil => exact List.Perm.refl _
  | cons y ys ih =>
    unfold sortInsert
    split
    · exact (List.Perm.cons y ih).trans (List.Perm.swap x y ys)
    · exact List.Perm.refl _

theorem jsSort_perm {α : Type} (cmp : α → α → JsNum) (l : List α) : (jsSort cmp l).Perm l := by
  induction l with
  | nil => exact List.Perm.refl _
  | cons x l ih =>
    show (sortInsert cmp x (jsSort cmp l)).Perm (x :: l)
    exact (sortInsert_perm cmp x _).trans (List.Perm.cons x ih)

theorem sortInsert_sorted {α β : Type} [LinearOrder β] (cmp : α → α → JsNum) (key : α → β)
    (x : α) (l : List α)
    (hcmp : ∀ y ∈ l, (cmp x y).isPos = decide (key x < key y))
    (hs : l.Pairwise (fun a b => key b ≤ key a)) :
    (sortInsert cmp x l).Pairwise (fun a b => key b ≤ key a) := by
  induction l with
  | nil => simp [sortInsert]
  | cons y ys ih =>
    unfold sortInsert
    rw [List.pairwise_cons] at hs
    have hy := hcmp y (List.mem_cons_self y ys)
    split
    · rename_i hpos
      rw [hy, decide_eq_true_eq] at hpos
      rw [List.pairwise_cons]
      refine ⟨?_, ih (fun z hz => hcmp z (List.mem_cons_of_mem y hz)) hs.2⟩
      intro z hz
      rcases List.mem_cons.1 ((sortInsert_perm cmp x ys).subset hz) with rfl | hz
      · exact le_of_lt hpos
      · exact hs.1 z hz
    · rename_i hpos
      rw [hy, decide_eq_true_eq, not_lt] at hpos
      rw [List.pairwise_cons]
      refine ⟨?_, List.pairwise_cons.2 hs⟩
      intro z hz
      rcases List.mem_cons.1 hz with rfl | hz
      · exact hpos
      · exact le_trans (hs.1 z hz) hpos

theorem sortInsert_filter {α β : Type} [LinearOrder β] (cmp : α → α → JsNum) (key : α → β)
    (P : α → Bool) (hP : ∀ a b, P a = true → P b = true → key a = key b) (x : α)
    (l : List α) (hcmp : ∀ y ∈ l, (cmp x y).isPos = decide (key x < key y)) :
    (sortInsert cmp x l).filter P = (x :: l).filter P := by
  induction l with
  | nil => rfl
  | cons y ys ih =>
    unfold sortInsert
    have hy := hcmp y (List.mem_cons_self y ys)
    split
    · rename_i hpos
      rw [hy, decide_eq_true_eq] at hpos
      rw [List.filter_cons, ih (fun z hz => hcmp z (List.mem_cons_of_mem y hz))]
      cases hx : P x
      · simp [List.filter_cons, hx]
      · have hyv : P y = false := by
          cases hyy : P y
          · rfl
          · exact absurd hpos (by rw [hP x y hx hyy]; exact lt_irrefl _)
        simp [List.filter_cons, hx, hyv]
    · rfl

theorem jsSort_sorted {α β : Type} [LinearOrder β] (cmp : α → α → JsNum) (key : α → β)
    (l : List α)
    (hcmp : ∀ x ∈ l, ∀ y ∈ l, (cmp x y).isPos = decide (key x < key y)) :
    (jsSort cmp l).Pairwise (fun a b => key b ≤ key a) := by
  induction l with
  | nil => exact List.Pairwise.nil
  | cons x l ih =>
    show (sortInsert cmp x (jsSort cmp l)).Pairwise _
    refine sortInsert_sorted cmp key x _ ?_ ?_
    · intro y hy
      exact hcmp x (List.mem_cons_self x l) y
        (List.mem_cons_of_mem x ((jsSort_perm cmp l).subset hy))
    · exact ih (fun a ha b hb =>
        hcmp a (List.mem_cons_of_mem x ha) b (List.mem_cons_of_mem x hb))

theorem jsSort_filter {α β : Type} [LinearOrder β] (cmp : α → α → JsNum) (key : α → β)
    (P : α → Bool) (hP : ∀ a b, P a = true → P b = true → key a = key b) (l : List α)
    (hcmp : ∀ x ∈ l, ∀ y ∈ l, (cmp x y).isPos = decide (key x < key y)) :
    (jsSort cmp l).filter P = l.filter P := by
  induction l with
  | nil => rfl
  | cons x l ih =>
    show (sortInsert cmp x (jsSort cmp l)).filter _ = _
    rw [sortInsert_filter cmp key P hP x _ (fun y hy =>
      hcmp x (List.mem_cons_self x l) y (List.mem_cons_of_mem x ((jsSort_perm cmp l).subset hy)))]
    rw [List.filter_cons, List.filter_cons,
      ih (fun a ha b hb => hcmp a (List.mem_cons_of_mem x ha) b (List.mem_cons_of_mem x hb))]

/-- C7. With the finite totals the store holds, `topCustomers` has `min 5 n` entries for the
`n` customers of the tenant; an entry carries the sum of the customer's order totals, added
from left to right in binary64 as `reduce` does; the entries are the first five of the stable
descending sort by spend (a permutation of all entries, non-increasing in spend, entries of
equal spend in enumeration order), so no omitted entry has a greater spend than a listed one.
Spends 50, 200, 75, 0 come out as 200, 75, 50, 0. -/
theorem topCustomers_spec (db : Db) (storeId : Nat)
    (hfin : ∀ o ∈ db.orders, o.total.isFinite = true) :
    (topCustomers db storeId).length = min 5 (countCustomers db storeId) ∧
    (spendEntries db storeId =
      (db.customers.filter (fun c => decide (c.storeId = storeId))).map (fun c =>
        { name := c.name, spend := doubleSum ((customerOrders db c).map Order.total) })) ∧
    (∃ sorted : List TopCustomer,
      topCustomers db storeId = sorted.take 5 ∧
      sorted.Perm (spendEntries db storeId) ∧
      sorted.Pairwise (fun a b => b.spend.toExt ≤ a.spend.toExt) ∧
      (∀ v : JsNum, sorted.filter (fun e => decide (e.spend = v)) =
        (spendEntries db storeId).filter (fun e => decide (e.spend = v))) ∧
      (∀ a ∈ sorted.take 5, ∀ b ∈ sorted.drop 5, b.spend.toExt ≤ a.spend.toExt)) ∧
    (spendEntries spendExampleDb 1).map TopCustomer.spend =
      [JsNum.fin 50, JsNum.fin 200, JsNum.fin 75, JsNum.fin 0] ∧
    (topCustomers spendExampleDb 1).map TopCustomer.spend =
      [JsNum.fin 200, JsNum.fin 75, JsNum.fin 50, JsNum.fin 0] := by
  have hent : spendEntries db storeId =
      (db.customers.filter (fun c => decide (c.storeId = storeId))).map (fun c =>
        { name := c.name, spend := doubleSum ((customerOrders db c).map Order.total) }) := by
    unfold spendEntries
    apply List.map_congr_left
    intro c _
    rw [spendOf_eq_doubleSum]
  have hdbl : ∀ x ∈ spendEntries db storeId, x.spend.IsDouble := by
    intro x hx
    unfold spendEntries at hx
    obtain ⟨c, _, rfl⟩ := List.mem_map.1 hx
    exact spendOf_isDouble db c hfin
  have hcmp : ∀ x ∈ spendEntries db storeId, ∀ y ∈ spendEntries db storeId,
      ((fun a b : TopCustomer => b.spend.sub a.spend) x y).isPos =
        decide (x.spend.toExt < y.spend.toExt) := by
    intro x hx y hy
    exact sub_isPos_double x.spend y.spend (hdbl x hx) (hdbl y hy)
  have hperm := jsSort_perm (fun a b : TopCustomer => b.spend.sub a.spend)
    (spendEntries db storeId)
  have hsorted := jsSort_sorted (fun a b : TopCustomer => b.spend.sub a.spend)
    (fun e : TopCustomer => e.spend.toExt) (spendEntries db storeId) hcmp
  refine ⟨?_, hent, ⟨_, rfl, hperm, hsorted, ?_, ?_⟩, by decide!, by decide!⟩
  · unfold topCustomers
    rw [List.length_take, hperm.length_eq]
    unfold spendEntries countCustomers
    rw [List.length_map]
  · intro v
    refine jsSort_filter _ (fun e : TopCustomer => e.spend.toExt)
      (fun e => decide (e.spend = v)) ?_ _ hcmp
    intro a b ha hb
    simp only [decide_eq_true_eq] at ha hb
    show a.spend.toExt = b.spend.toExt
    rw [ha, hb]
  · intro a ha b hb
    have h := hsorted
    rw [← List.take_append_drop 5 (jsSort (fun a b : TopCustomer => b.spend.sub a.spend)
      (spendEntries db storeId)), List.pairwise_append] at h
    exact h.2.2 a ha b hb

/-! ## The store holds finite totals only -/

/-- Every loop iteration keeps the order totals finite: the store takes no other total. -/
theorem runStep_totalsFinite (t : Tenant) (db : Db) (i : SyncStep)
    (h : ∀ o ∈ db.orders, o.total.isFinite = true) :
    ∀ o ∈ (runStep t db i).orders, o.total.isFinite = true := by
  cases i with
  | customer c => exact h
  | product p =>
    have : (runStep t db (SyncStep.product p)).orders = db.orders := by
      simp only [runStep]
      cases hp : productAccepted p
      · rw [upsertProduct_rejected db t p hp]; rfl
      · rw [upsertProduct_accepted db t p hp]; rfl
    rw [this]
    exact h
  | order ro =>
    intro o ho
    simp only [runStep] at ho
    cases ha : orderAccepted ro
    · rw [reconcileOrder_orders_rejected db t ro ha] at ho
      exact h o ho
    · obtain ⟨ts, _, hfin, _⟩ := reconcileOrder_orders_accepted db t ro ha
      rcases mem_reconcileOrder db t ro o ha ho with ⟨hold, _⟩ | ⟨_, htot, _, _⟩
      · exact h o hold
      · rw [htot]
        exact hfin

theorem fold_totalsFinite (t : Tenant) (l : List SyncStep) :
    ∀ db : Db, (∀ o ∈ db.orders, o.total.isFinite = true) →
      ∀ o ∈ (l.foldl (runStep t) db).orders, o.total.isFinite = true := by
  induction l with
  | nil => intro db h; exact h
  | cons i l ih =>
    intro db h
    rw [List.foldl_cons]
    exact ih _ (runStep_totalsFinite t db i h)

/-- Spends that differ only below the last binary64 digit tie, and the stable sort keeps the
enumeration order: the customer with orders 1e16 and 1 stays behind the one with 1e16. -/
theorem topCustomers_rounding_tie :
    topCustomers tieExampleDb 1 =
      [{ name := some "Bea", spend := JsNum.fin 10000000000000000 },
       { name := some "Abe", spend := JsNum.fin 10000000000000000 }] := by
  decide!

/-! ## The daily series -/

theorem datesLoop_constant (c : Int) (n : Nat) : ∀ (s e : Int), (e - s + 1).toNat = n →
    datesLoop (constantZone c) (dateOnly s) (dateOnly e) =
      (List.range n).map (fun i : Nat => s + (i : Int)) := by
  induction n with
  | zero =>
    intro s e h
    rw [datesLoop, if_neg]
    · rfl
    · simp only [dateOnly, msPerDay]
      omega
  | succ n ih =>
    intro s e h
    rw [datesLoop, if_pos]
    · have h1 : nextLocalDay (constantZone c) (dateOnly s) = dateOnly (s + 1) := by
        simp only [nextLocalDay, constantZone, dateOnly, msPerDay]
        ring
      have h2 : isoDate (dateOnly s) = s := by
        simp only [isoDate, dateOnly, msPerDay]
        omega
      rw [h1, h2, ih (s + 1) e (by omega), List.range_succ_eq_map, List.map_cons, List.map_map]
      congr 1
      · simp
      · apply List.map_congr_left
        intro i _
        simp only [Function.comp, Nat.succ_eq_add_one, Nat.cast_add, Nat.cast_one]
        ring
    · simp only [dateOnly, msPerDay]
      omega

/-- In a zone with a constant offset the labels are the days of the range. -/
theorem seriesLabels_constant (c s e : Int) :
    seriesLabels (constantZone c) s e = daysBetween s e :=
  datesLoop_constant c _ s e rfl

theorem mem_daysBetween (s e d : Int) : d ∈ daysBetween s e ↔ s ≤ d ∧ d ≤ e := by
  unfold daysBetween
  rw [List.mem_map]
  constructor
  · rintro ⟨i, hi, rfl⟩
    rw [List.mem_range] at hi
    omega
  · intro h
    refine ⟨(d - s).toNat, ?_, ?_⟩
    · rw [List.mem_range]; omega
    · omega

theorem daysBetween_ascending (s e : Int) : (daysBetween s e).Pairwise (fun a b => a < b) := by
  unfold daysBetween
  rw [List.pairwise_map]
  refine List.Pairwise.imp ?_ (List.pairwise_lt_range _)
  intro a b h
  omega

theorem foldl_countStep (l : List Order) :
    ∀ (acc : Int → Option Nat) (d : Int),
      readCount (l.foldl countStep acc) d =
        readCount acc d + (l.filter (fun o => decide (isoDate o.createdAt = d))).length := by
  induction l with
  | nil => intro acc d; simp
  | cons o l ih =>
    intro acc d
    rw [List.foldl_cons, ih]
    have hstep : readCount (countStep acc o) d =
        readCount acc d + if isoDate o.createdAt = d then 1 else 0 := by
      unfold countStep
      by_cases hd : isoDate o.createdAt = d
      · subst hd
        simp only [readCount, Function.update_same, if_true]
      · simp only [readCount, Function.update_noteq (Ne.symm hd), if_neg hd, Nat.add_zero]
    rw [hstep]
    by_cases hd : isoDate o.createdAt = d
    · rw [if_pos hd, List.filter_cons_of_pos (by simpa using hd), List.length_cons]
      omega
    · rw [if_neg hd, List.filter_cons_of_neg (by simpa using hd)]
      omega

theorem inRange_day_iff (tenantId : Nat) (s e d : Int) (hd : s ≤ d ∧ d ≤ e) (o : Order) :
    (decide (isoDate o.createdAt = d) &&
      (decide (o.storeId = tenantId) &&
        (decide (dateOnly s ≤ o.createdAt) && decide (o.createdAt ≤ endOfDay e)))) =
    (decide (o.storeId = tenantId) && decide (isoDate o.createdAt = d)) := by
  by_cases h1 : o.storeId = tenantId
  · by_cases h2 : isoDate o.createdAt = d
    · have h3 : dateOnly s ≤ o.createdAt ∧ o.createdAt ≤ endOfDay e := by
        simp only [isoDate, dateOnly, endOfDay, msPerDay] at *
        omega
      simp [h1, h2, h3.1, h3.2]
    · simp [h1, h2]
  · simp [h1]

theorem ordersInRange_day_perm (db : Db) (tenantId : Nat) (s e d : Int) (hd : s ≤ d ∧ d ≤ e) :
    ((ordersInRange db tenantId s e).filter
      (fun o => decide (isoDate o.createdAt = d))).Perm (ordersOnDay db tenantId d) := by
  have h := (List.perm_insertionSort (fun a b : Order => a.createdAt ≤ b.createdAt)
    (db.orders.filter (fun o =>
      decide (o.storeId = tenantId) &&
      (decide (dateOnly s ≤ o.createdAt) && decide (o.createdAt ≤ endOfDay e))))).filter
    (fun o => decide (isoDate o.createdAt = d))
  rw [List.filter_filter] at h
  unfold ordersOnDay
  rw [List.filter_congr (fun o _ => inRange_day_iff tenantId s e d hd o)] at h
  exact h

/-- What the claim C8 describes holds when the local zone of the process has a constant
offset from UTC: the labels are the days of the range in ascending order, one per day, and
the order series counts, index by index, the tenant's orders of the label's UTC day.  For
2024-01-01..2024-01-03 and one order of total 30 on 2024-01-02 the responses in UTC are the
three days with data 0, 30, 0 and 0, 1, 0; for 2024-02-01..2024-01-01 they are empty. -/
theorem dailySeries_constantOffset (c : Int) (db : Db) (tenantId : Nat) (startDay endDay : Int) :
    (revenueSeries (constantZone c) db tenantId startDay endDay).1 = daysBetween startDay endDay ∧
    (ordersSeries (constantZone c) db tenantId startDay endDay).1 = daysBetween startDay endDay ∧
    (daysBetween startDay endDay).Pairwise (fun a b => a < b) ∧
    (∀ d : Int, d ∈ daysBetween startDay endDay ↔ startDay ≤ d ∧ d ≤ endDay) ∧
    (ordersSeries (constantZone c) db tenantId startDay endDay).2 =
      (daysBetween startDay endDay).map (fun d => (ordersOnDay db tenantId d).length) ∧
    revenueSeries utcZone seriesExampleDb 1 (daysFromCivil 2024 1 1) (daysFromCivil 2024 1 3) =
      ([daysFromCivil 2024 1 1, daysFromCivil 2024 1 2, daysFromCivil 2024 1 3],
        [JsNum.fin 0, JsNum.fin 30, JsNum.fin 0]) ∧
    ordersSeries utcZone seriesExampleDb 1 (daysFromCivil 2024 1 1) (daysFromCivil 2024 1 3) =
      ([daysFromCivil 2024 1 1, daysFromCivil 2024 1 2, daysFromCivil 2024 1 3], [0, 1, 0]) ∧
    revenueSeries utcZone seriesExampleDb 1 (daysFromCivil 2024 2 1) (daysFromCivil 2024 1 1) =
      ([], []) ∧
    ordersSeries utcZone seriesExampleDb 1 (daysFromCivil 2024 2 1) (daysFromCivil 2024 1 1) =
      ([], []) := by
  refine ⟨seriesLabels_constant c startDay endDay, seriesLabels_constant c startDay endDay,
    daysBetween_ascending startDay endDay, mem_daysBetween startDay endDay, ?_, ?_, ?_, ?_, ?_⟩
  · show (seriesLabels (constantZone c) startDay endDay).map _ = _
    rw [seriesLabels_constant]
    apply List.map_congr_left
    intro d hd
    rw [mem_daysBetween] at hd
    rw [foldl_countStep, (ordersInRange_day_perm db tenantId startDay endDay d hd).length_eq]
    simp [readCount]
  · simp only [revenueSeries, utcZone, seriesLabels_constant, daysBetween]
    decide!
  · simp only [ordersSeries, utcZone, seriesLabels_constant, daysBetween]
    decide!
  · simp only [revenueSeries, utcZone, seriesLabels_constant, daysBetween]
    decide!
  · simp only [ordersSeries, utcZone, seriesLabels_constant, daysBetween]
    decide!

theorem seriesLabels_london :
    seriesLabels europeLondon (daysFromCivil 2024 3 30) (daysFromCivil 2024 4 2) =
      [daysFromCivil 2024 3 30, daysFromCivil 2024 3 31, daysFromCivil 2024 3 31,
        daysFromCivil 2024 4 1] := by
  have e1 : daysFromCivil 2024 3 30 = 19812 := by decide
  have e2 : daysFromCivil 2024 4 2 = 19815 := by decide
  have e3 : daysFromCivil 2024 3 31 = 19813 := by decide
  have e4 : daysFromCivil 2024 4 1 = 19814 := by decide
  have e5 : daysFromCivil 2024 10 27 = 20023 := by decide
  rw [e1, e2, e3, e4]
  unfold seriesLabels
  rw [datesLoop, datesLoop, datesLoop, datesLoop, datesLoop]
  simp [nextLocalDay, europeLondon, londonSummerStart, londonSummerEnd, dateOnly, msPerDay,
    isoDate, e3, e5]

/-- C8 on a concrete input. With the process in the zone Europe/London and the range
2024-03-30..2024-04-02, the loop that steps by local calendar day and labels by UTC day
returns the labels 03-30, 03-31, 03-31, 04-01: the day 03-31 twice and the day 04-02 never,
so an order of total 30 placed on 04-02 appears in neither series (data 0, 0, 0, 0), while
the days of the range are 03-30, 03-31, 04-01, 04-02. -/
theorem series_skips_day_across_clock_change :
    revenueSeries europeLondon londonExampleDb 1 (daysFromCivil 2024 3 30)
        (daysFromCivil 2024 4 2) =
      ([daysFromCivil 2024 3 30, daysFromCivil 2024 3 31, daysFromCivil 2024 3 31,
          daysFromCivil 2024 4 1],
        [JsNum.fin 0, JsNum.fin 0, JsNum.fin 0, JsNum.fin 0]) ∧
    ordersSeries europeLondon londonExampleDb 1 (daysFromCivil 2024 3 30)
        (daysFromCivil 2024 4 2) =
      ([daysFromCivil 2024 3 30, daysFromCivil 2024 3 31, daysFromCivil 2024 3 31,
          daysFromCivil 2024 4 1],
        [0, 0, 0, 0]) ∧
    daysBetween (daysFromCivil 2024 3 30) (daysFromCivil 2024 4 2) =
      [daysFromCivil 2024 3 30, daysFromCivil 2024 3 31, daysFromCivil 2024 4 1,
        daysFromCivil 2024 4 2] ∧
    (ordersOnDay londonExampleDb 1 (daysFromCivil 2024 4 2)).map Order.total =
      [JsNum.fin 30] := by
  refine ⟨?_, ?_, by decide, by decide⟩
  · simp only [revenueSeries, seriesLabels_london]
    decide!
  · simp only [ordersSeries, seriesLabels_london]
    decide!

/-! ## `parseFloat` and the product loop -/

theorem roundDouble_ne_nan (q : ℚ) : roundDouble q ≠ JsNum.nan := by
  intro h
  have := roundDouble_isDouble q
  rw [h] at this
  exact this

theorem takeWhile_eq_nil_of_head {p : Char → Bool} (c : Char) (rest : List Char)
    (h : p c = false) : (c :: rest).takeWhile p = [] := by
  simp [List.takeWhile, h]

theorem dropWhile_of_head {p : Char → Bool} (c : Char) (rest : List Char)
    (h : p c = false) : (c :: rest).dropWhile p = c :: rest := by
  simp [List.dropWhile, h]

theorem takeWhile_ne_nil_of_head {p : Char → Bool} (c : Char) (rest : List Char)
    (h : p c = true) : (c :: rest).takeWhile p ≠ [] := by
  simp [List.takeWhile, h]

theorem dot_not_digit : Char.isDigit '.' = false := by decide

theorem parseUnsignedDecimal_eq_none_iff (cs : List Char) :
    parseUnsignedDecimal cs = none ↔ startsDecimal cs = false := by
  cases cs with
  | nil => simp [parseUnsignedDecimal, startsDecimal]
  | cons c rest =>
    cases hc : c.isDigit
    · have h1 := takeWhile_eq_nil_of_head c rest hc
      have h2 := dropWhile_of_head c rest hc
      unfold parseUnsignedDecimal
      simp only [h1, h2]
      by_cases hdot : c = '.'
      · subst hdot
        simp only [startsDecimal, hc, Bool.false_or, decide_True, Bool.true_and, true_and,
          List.nil_append]
        cases rest with
        | nil => simp
        | cons d rest2 =>
          cases hd : d.isDigit
          · simp [takeWhile_eq_nil_of_head d rest2 hd, hd]
          · simp [takeWhile_ne_nil_of_head d rest2 hd, hd]
      · have : startsDecimal (c :: rest) = false := by
          simp [startsDecimal, hc, hdot]
        rw [this]
        simp only [iff_true]
        split
        · rename_i r heq
          exact absurd (List.cons.inj heq).1 hdot
        · simp
    · have h1 := takeWhile_ne_nil_of_head c rest hc
      have hs : startsDecimal (c :: rest) = true := by simp [startsDecimal, hc]
      rw [hs]
      simp only [Bool.true_eq_false, iff_false]
      unfold parseUnsignedDecimal
      simp only
      split
      · simp [h1]
      · simp [h1]

theorem parseUnsigned_eq_nan_iff (cs : List Char) :
    parseUnsigned cs = JsNum.nan ↔
      ("Infinity".data.isPrefixOf cs || startsDecimal cs) = false := by
  unfold parseUnsigned
  cases hi : "Infinity".data.isPrefixOf cs
  · simp only [Bool.false_eq_true, if_false, Bool.false_or]
    rw [← parseUnsignedDecimal_eq_none_iff]
    cases parseUnsignedDecimal cs with
    | none => simp
    | some q => simp [roundDouble_ne_nan]
  · simp

theorem neg_eq_nan_iff (x : JsNum) : x.neg = JsNum.nan ↔ x = JsNum.nan := by
  cases x <;> simp [JsNum.neg]

/-- The built-in `parseFloat` yields `NaN` exactly for the texts without a leading number. -/
theorem parseFloat_eq_nan_iff (s : String) :
    parseFloat s = JsNum.nan ↔ hasLeadingNumber s = false := by
  unfold parseFloat parseFloatChars hasLeadingNumber afterSign
  split
  · rename_i r heq
    rw [neg_eq_nan_iff]
    exact parseUnsigned_eq_nan_iff r
  · rename_i r heq
    exact parseUnsigned_eq_nan_iff r
  · exact parseUnsigned_eq_nan_iff _

/-- C9, as the code has it. The product upsert parses the first listed variant's price with
`parseFloat` (the value of the longest leading decimal literal, rounded to binary64) and, when
the result is finite, stores it under the key of the remote product; the price is 0 when it is
missing (no variants, or a first variant whose price is absent, null or empty).  When the
price text is not empty and has no leading number, the result is `NaN`; a result that is
`NaN` or infinite is rejected by the store, so that no product row is written and a sync
containing the product answers with a failure.  A sync whose fetches succeed and whose
writes are all taken answers with the summary. -/
theorem product_price_stored (sumOf : List JsNum → JsNum) (db : Db) (tenant : Tenant)
    (p : RemoteProduct) :
    (productAccepted p = true →
      ∃ db1, upsertProduct db tenant p = some db1 ∧
        (∃ r ∈ db1.products, r.shopifyId = idKey p.id) ∧
        ∀ r ∈ db1.products, r.shopifyId = idKey p.id → r.price = productPrice p) ∧
    (productAccepted p = false →
      upsertProduct db tenant p = none ∧
      reconcileProducts db tenant [p] = LoopResult.threw db ∧
      ∀ (db0 : Db) (cs : List RemoteCustomer) (ps : List RemoteProduct)
        (os : List RemoteOrder), p ∈ ps →
        (syncTenant sumOf db0 tenant (some cs) (some ps) (some os)).2 =
          SyncResponse.syncFailed) ∧
    (p.variants = [] → productPrice p = JsNum.fin 0 ∧ productAccepted p = true) ∧
    (∀ v vs, p.variants = v :: vs → v.price = JsText.undefined ∨ v.price = JsText.null ∨
      v.price = JsText.str "" → productPrice p = JsNum.fin 0 ∧ productAccepted p = true) ∧
    (∀ v vs s, p.variants = v :: vs → v.price = JsText.str s → s ≠ "" →
      productPrice p = parseFloat s ∧
      (hasLeadingNumber s = false → productPrice p = JsNum.nan ∧ productAccepted p = false)) ∧
    parseFloat "12.50" = JsNum.fin (25 / 2) ∧
    parseFloat "abc" = JsNum.nan ∧
    parseFloat "1e400" = JsNum.inf false ∧
    (∀ (db0 : Db) (cs : List RemoteCustomer) (ps : List RemoteProduct) (os : List RemoteOrder),
      p ∈ ps → (∀ p2 ∈ ps, productAccepted p2 = true) →
      (∀ o ∈ os, orderAccepted o = true) →
      (syncTenant sumOf db0 tenant (some cs) (some ps) (some os)).2 =
        SyncResponse.ok
          (summary sumOf (syncTenant sumOf db0 tenant (some cs) (some ps) (some os)).1
            tenant.id)) := by
  have hzero : parseFloat "0" = JsNum.fin 0 := by decide!
  refine ⟨?_, ?_, ?_, ?_, ?_, by decide!, by decide, by decide!, ?_⟩
  · intro ha
    refine ⟨_, upsertProduct_accepted db tenant p ha, ?_, ?_⟩
    · refine (upsertRows_key_rows Product.shopifyId db.products (idKey p.id) _ _ ?_ ?_).1
      · intro r
        rfl
      · rfl
    · intro r hr hk
      rcases mem_upsertRows _ _ _ _ _ r hr with ⟨_, hne⟩ | ⟨r0, _, _, rfl⟩ | rfl
      · exact absurd hk hne
      · rfl
      · rfl
  · intro ha
    refine ⟨upsertProduct_rejected db tenant p ha, ?_, ?_⟩
    · simp only [reconcileProducts, upsertProduct_rejected db tenant p ha]
    · intro db0 cs ps os hmem
      exact syncTenant_failed sumOf db0 tenant cs ps os (Or.inl ⟨p, hmem, ha⟩)
  · intro h
    have hp : productPrice p = JsNum.fin 0 := by
      simp [productPrice, firstVariantPrice, h, JsText.truthy, hzero]
    exact ⟨hp, by simp [productAccepted, hp, JsNum.isFinite]⟩
  · intro v vs h hv
    have hp : productPrice p = JsNum.fin 0 := by
      rcases hv with hv | hv | hv <;>
        simp [productPrice, firstVariantPrice, h, hv, JsText.truthy, hzero]
    exact ⟨hp, by simp [productAccepted, hp, JsNum.isFinite]⟩
  · intro v vs s h hv hs
    have hp : productPrice p = parseFloat s := by
      simp [productPrice, firstVariantPrice, h, hv, JsText.truthy, hs, parseFloatText,
        JsText.toJsString]
    refine ⟨hp, ?_⟩
    intro hl
    have hn : productPrice p = JsNum.nan := by
      rw [hp]
      exact (parseFloat_eq_nan_iff s).2 hl
    exact ⟨hn, by simp [productAccepted, hn, JsNum.isFinite]⟩
  · intro db0 cs ps os _ hp ho
    exact syncTenant_ok sumOf db0 tenant cs ps os hp ho

/-- C9 fails as stated: the malformed price text `abc` is not stored as 0; the product write
is rejected, no product row is written and the sync answers with a failure. -/
theorem malformed_price_counterexample :
    productPrice malformedProduct = JsNum.nan ∧
    syncTenant doubleSum emptyDb tenantOne (some []) (some [malformedProduct]) (some []) =
      (emptyDb, SyncResponse.syncFailed) := by
  decide

/-! ## The customer loop run twice -/

/-- C10 on a concrete input. A remote customer with an empty first name is created with the
name `Unknown`; the second, identical sync takes the update path and overwrites the name
with the empty text, so the database after two syncs differs from the one after one. -/
theorem reconcile_twice_rewrites_default_name :
    (syncTenant doubleSum emptyDb tenantOne (some [namelessCustomer]) (some []) (some [])).1 =
      { emptyDb with
        customers := [{ id := 1, shopifyId := "1", name := some "Unknown",
                        email := some "ann@example.com", storeId := 1 }]
        nextCustomerId := 2 } ∧
    (syncTenant doubleSum
      (syncTenant doubleSum emptyDb tenantOne (some [namelessCustomer]) (some [])
        (some [])).1
      tenantOne (some [namelessCustomer]) (some []) (some [])).1 =
      { emptyDb with
        customers := [{ id := 1, shopifyId := "1", name := some "",
                        email := some "ann@example.com", storeId := 1 }]
        nextCustomerId := 2 } ∧
    (syncTenant doubleSum
      (syncTenant doubleSum emptyDb tenantOne (some [namelessCustomer]) (some [])
        (some [])).1
      tenantOne (some [namelessCustomer]) (some []) (some [])).1 ≠
    (syncTenant doubleSum emptyDb tenantOne (some [namelessCustomer]) (some []) (some [])).1 ∧
    (syncTenant doubleSum emptyDb tenantOne (some [namelessCustomer]) (some [])
      (some [])).2 = SyncResponse.ok
        { totalCustomers := 1, totalOrders := 0, totalRevenue := JsNum.fin 0,
          topCustomers := [{ name := some "Unknown", spend := JsNum.fin 0 }] } := by
  decide

/-! ## Instances on the example data -/

theorem spendExampleDb_keysUnique : spendExampleDb.KeysUnique := by
  unfold Db.KeysUnique
  decide

theorem spendExampleDb_guestsNamed : spendExampleDb.GuestsNamed := by
  intro c hc n hn
  simp only [spendExampleDb, List.mem_cons, List.mem_singleton, List.not_mem_nil, or_false]
    at hc
  rcases hc with rfl | rfl | rfl | rfl
  · exact absurd hn (idKey_ne_guestKey 11 n)
  · exact absurd hn (idKey_ne_guestKey 12 n)
  · exact absurd hn (idKey_ne_guestKey 13 n)
  · exact absurd hn (idKey_ne_guestKey 14 n)

theorem spendExampleDb_finite : ∀ o ∈ spendExampleDb.orders, o.total.isFinite = true := by
  decide

theorem guestOrder_accepted : orderAccepted guestOrder = true := by decide!

theorem danglingOrder_accepted : orderAccepted danglingOrder = true := by decide!

theorem sync_twice_counts_and_keys_witness :
    spendExampleDb.KeysUnique ∧
    countCustomers
        (syncHandler doubleSum
          (syncHandler doubleSum spendExampleDb 1 1 (some exampleCustomers)
            (some exampleProducts) (some exampleOrders)).1
          1 1 (some exampleCustomers) (some exampleProducts) (some exampleOrders)).1 1 =
      countCustomers
        (syncHandler doubleSum spendExampleDb 1 1 (some exampleCustomers)
          (some exampleProducts) (some exampleOrders)).1 1 :=
  ⟨spendExampleDb_keysUnique,
    (sync_twice_counts_and_keys doubleSum spendExampleDb 1 1 (some exampleCustomers)
      (some exampleProducts) (some exampleOrders) spendExampleDb_keysUnique).1⟩

theorem guest_customer_stable_witness :
    isGuestOrder guestOrder = true ∧
    (spendExampleDb.customers.map Customer.shopifyId).Nodup ∧
    spendExampleDb.GuestsNamed ∧
    orderAccepted guestOrder = true ∧
    ∃ g : Customer, g.shopifyId = guestKey 201 ∧ g.name = some "Guest" ∧
      customersWithKey (reconcileOrder spendExampleDb tenantOne guestOrder).db (guestKey 201) =
        [g] ∧
      (reconcileOrder spendExampleDb tenantOne guestOrder).db.OrderLinkedTo 201 g :=
  ⟨by decide, spendExampleDb_keysUnique.1, spendExampleDb_guestsNamed, guestOrder_accepted,
    (guest_customer_stable spendExampleDb tenantOne guestOrder (by decide)
      spendExampleDb_keysUnique.1 spendExampleDb_guestsNamed).imp
      (fun _ h => ⟨h.1, h.2.1, h.2.2.1, (h.2.2.2.1 guestOrder_accepted).2⟩)⟩

theorem unresolved_reference_order_witness :
    danglingOrder.customer = some { id := 99 } ∧ (99 : Nat) ≠ 0 ∧
    idKey 99 ∉ spendExampleDb.customers.map Customer.shopifyId ∧
    orderAccepted danglingOrder = true ∧
    (reconcileOrder spendExampleDb tenantOne danglingOrder).db.customers =
      spendExampleDb.customers ∧
    (∀ r ∈ (reconcileOrder spendExampleDb tenantOne danglingOrder).db.orders,
      r.shopifyId = idKey 202 →
      r.total = parseFloatText (JsText.str "8") ∧ some (0 : Int) = some r.createdAt ∧
      r.customerId = none) :=
  ⟨rfl, by decide, by decide, danglingOrder_accepted,
    (unresolved_reference_order doubleSum spendExampleDb tenantOne danglingOrder { id := 99 }
      rfl (by decide) (by decide)).1,
    ((unresolved_reference_order doubleSum spendExampleDb tenantOne danglingOrder { id := 99 }
      rfl (by decide) (by decide)).2.1 danglingOrder_accepted).2.2.1⟩

theorem fetch_failure_keeps_earlier_loops_witness :
    ((some exampleCustomers = none) ∨ ((none : Option (List RemoteProduct)) = none) ∨
      (some exampleOrders = none)) ∧
    (syncTenant doubleSum spendExampleDb tenantOne (some exampleCustomers) none
      (some exampleOrders)).2 = SyncResponse.syncFailed ∧
    (syncTenant doubleSum spendExampleDb tenantOne (some exampleCustomers) none
      (some exampleOrders)).1 = reconcileCustomers spendExampleDb tenantOne exampleCustomers :=
  ⟨Or.inr (Or.inl rfl),
    (fetch_failure_keeps_earlier_loops doubleSum spendExampleDb tenantOne
      (some exampleCustomers) none (some exampleOrders) (Or.inr (Or.inl rfl))).1,
    (fetch_failure_keeps_earlier_loops doubleSum spendExampleDb tenantOne
      (some exampleCustomers) none (some exampleOrders) (Or.inr (Or.inl rfl))).2.2.1
      exampleCustomers rfl rfl⟩

theorem totalRevenue_is_sum_witness :
    (∀ o ∈ tenantOrders spendExampleDb 1, o.total.isFinite = true) ∧
    (statsHandler exactSum spendExampleDb 1).totalRevenue = JsNum.fin 325 :=
  ⟨by decide, (totalRevenue_is_sum spendExampleDb 1 (by decide)).1.trans (by decide!)⟩

theorem topCustomers_spec_witness :
    (∀ o ∈ spendExampleDb.orders, o.total.isFinite = true) ∧
    (topCustomers spendExampleDb 1).length = min 5 (countCustomers spendExampleDb 1) :=
  ⟨spendExampleDb_finite, (topCustomers_spec spendExampleDb 1 spendExampleDb_finite).1⟩

theorem orders_reference_resolved_witness :
    ({ id := 6, shopifyId := "202", total := JsNum.fin 8, createdAt := 0, storeId := 1,
       customerId := none } : Order) ∈
      (reconcileOrders spendExampleDb tenantOne exampleOrders).db.orders ∧
    "202" ∈ (upsertedOrders exampleOrders).map (fun o => idKey o.id) ∧
    ∃ o ∈ upsertedOrders exampleOrders, idKey o.id = "202" ∧
      ((refKnown spendExampleDb o = true ∧
          ∃ c ∈ (reconcileOrders spendExampleDb tenantOne exampleOrders).db.customers,
            c.shopifyId = customerKeyFor o ∧ (none : Option Nat) = some c.id) ∨
        (refKnown spendExampleDb o = false ∧ (none : Option Nat) = none)) :=
  ⟨by decide!, by decide!,
    orders_reference_resolved spendExampleDb tenantOne exampleOrders
      { id := 6, shopifyId := "202", total := JsNum.fin 8, createdAt := 0, storeId := 1,
        customerId := none } (by decide!) (by decide!)⟩

end Xeno
